import Mathlib

/-!
Verification development for the MTG-Helper decklist parsing and
reconciliation engine.

The definitions below are a shallow embedding of the JavaScript source:

* `src/services/scryfallApi.js` — decklist tokenization (the regex
  pattern applied per line), the tiered name-resolution functions
  (getCardByFuzzyName, searchCardInLanguage, searchCardInAnyLanguage),
  the batched lookup (getCardCollection, 75 identifiers per chunk), the
  rate limiter (rateLimitedFetch), and the bulk resolution path
  (parseDeckList).
* `src/services/storageService.js` — collection and deck reconciliation
  (addCardToCollection, removeCardFromCollection, updateCardInCollection,
  addDecklistToCollection, addCardToDeck, removeCardFromDeck,
  updateCardInDeck).
* `src/context/CollectionContext.js` — the bulk add path
  (addCardsToCollection).

Network calls are modelled by oracle functions (`Except` valued), the
persisted store by explicit list state, and wall-clock time by explicit
integer timestamps.  JavaScript strings are modelled as `List Char`.
-/

namespace MTG

/-- JavaScript strings, modelled as lists of characters. -/
abbrev Str := List Char

/-- The JavaScript whitespace class (the ASCII part): the characters
matched by a backslash-s in a regular expression and stripped by
String.prototype.trim.  The non-ASCII whitespace code points are not
modelled; inputs are taken to be ASCII. -/
def jsWhite (c : Char) : Bool :=
  c = ' ' || c = '\t' || c = '\n' || c = '\r' || c = '\x0b' || c = '\x0c'

/-- The character class matched by an (unflagged) dot in a JavaScript
regular expression: any character except a line terminator.  The two
non-ASCII terminators are not modelled; inputs are taken to be ASCII. -/
def isDotChar (c : Char) : Bool := !(c = '\n' || c = '\r')

/-- Left trim. -/
def trimL (s : Str) : Str := s.dropWhile jsWhite

/-- Right trim. -/
def trimR (s : Str) : Str := (s.reverse.dropWhile jsWhite).reverse

/-- JavaScript String.prototype.trim. -/
def trim (s : Str) : Str := trimR (trimL s)

/-- Case folding used by the batch-result matcher
(d.name.toLowerCase() === card.name.toLowerCase()); ASCII-accurate. -/
def lowerStr (s : Str) : Str := s.map Char.toLower

/-- The character class matched by the literal x in the decklist line
regex (the regex carries the i flag, so it matches x and X). -/
def isXChar (c : Char) : Bool := c = 'x' || c = 'X'

/-! ## Decklist tokenizer

`parseDeckList` in scryfallApi.js splits the input on newlines, keeps the
lines whose trim is nonempty, and matches each against the JavaScript
regex pattern (with the i flag): caret, optional capture of one-or-more
digits, optional literal x, any run of whitespace, capture of
one-or-more arbitrary characters (dot), dollar.
The model below reproduces the backtracking search of the regex engine:
group lengths are tried greedily (longest first), and the first
assignment whose final capture is nonempty and consists of
dot-matchable characters wins.
-/

/-- Candidate lengths for a greedy star over a run of `m` matching
characters: `m, m-1, ..., 0` in the order the engine tries them. -/
def wsLens (m : Nat) : List Nat := (List.range (m + 1)).reverse

/-- Backtracking over the whitespace-star and the final capture: try
whitespace runs longest first; the final capture is the rest of the
line and must be nonempty and consist of dot-matchable characters. -/
def wsSearch (g1 : Option Str) (rest2 : Str) : Option (Option Str × Str) :=
  let m := (rest2.takeWhile jsWhite).length
  (wsLens m).findSome? (fun w =>
    let rest3 := rest2.drop w
    if rest3.isEmpty then none
    else if rest3.all isDotChar then some (g1, rest3) else none)

/-- Backtracking over the optional-x part, after the digit group has
consumed a prefix.  `g1` is the content of the digit capture group
(`none` when the group matched nothing), `rest1` the rest of the line.
Returns the two capture groups of the first successful assignment. -/
def tryTail (g1 : Option Str) (rest1 : Str) : Option (Option Str × Str) :=
  let xChoices : List Nat :=
    match rest1 with
    | c :: _ => if isXChar c then [1, 0] else [0]
    | [] => [0]
  xChoices.findSome? (fun k => wsSearch g1 (rest1.drop k))

/-- The full backtracking match of the line regex against a line:
digit-group lengths are tried longest first, then the empty (absent)
group.  Returns `(first capture group, second capture group)`. -/
def matchLine (s : Str) : Option (Option Str × Str) :=
  let n := (s.takeWhile Char.isDigit).length
  let dChoices : List (Option Nat) := ((List.range' 1 n).reverse.map some) ++ [none]
  dChoices.findSome? (fun d =>
    match d with
    | some k => tryTail (some (s.take k)) (s.drop k)
    | none => tryTail none s)

/-- Decimal value of a digit string (the behaviour of parseInt on the
digit-only capture group). -/
def digitsToNat (ds : Str) : Nat :=
  ds.foldl (fun acc c => acc * 10 + (c.toNat - '0'.toNat)) 0

/-- quantity = parseInt(match[1]) || 1: an absent group gives NaN and a
zero value is falsy, so both default to 1. -/
def quantityOf (g1 : Option Str) : Nat :=
  match g1 with
  | some ds => if digitsToNat ds = 0 then 1 else digitsToNat ds
  | none => 1

/-- A tokenized decklist entry ({ name, quantity } in parseDeckList). -/
structure DeckEntry where
  name : Str
  quantity : Nat
deriving DecidableEq, Repr

/-- cardName.startsWith('//') || cardName.startsWith('#'). -/
def startsWithComment (s : Str) : Bool :=
  match s with
  | '/' :: '/' :: _ => true
  | '#' :: _ => true
  | _ => false

/-- The tail of the tokenizing loop body: discard empty names and
comment markers, otherwise emit the entry. -/
def finishEntry (g1 : Option Str) (cardName : Str) : Option DeckEntry :=
  if cardName.isEmpty || startsWithComment cardName then none
  else some ⟨cardName, quantityOf g1⟩

/-- Turn a regex match result into a tokenized entry: a failed match is
skipped; a successful one has its name capture trimmed and processed. -/
def matchResultToEntry (o : Option (Option Str × Str)) : Option DeckEntry :=
  match o with
  | none => none
  | some (g1, g2) => finishEntry g1 (trim g2)

/-- One iteration of the tokenizing loop of parseDeckList: match the
line, trim the name capture, and discard empty names and comment
markers. -/
def tokenizeLine (line : Str) : Option DeckEntry :=
  matchResultToEntry (matchLine line)

/-- decklistText.split of the newline character. -/
def splitLines : Str → List Str
  | [] => [[]]
  | c :: rest =>
    if c = '\n' then [] :: splitLines rest
    else
      match splitLines rest with
      | l :: ls => (c :: l) :: ls
      | [] => [[c]]

/-- The tokenization phase of parseDeckList: split into lines, keep the
lines with nonempty trim, and tokenize each. -/
def tokenize (text : Str) : List DeckEntry :=
  ((splitLines text).filter (fun l => !(trim l).isEmpty)).filterMap tokenizeLine

/-- Last element with a default. -/
def lastD : Str → Char → Char
  | [], d => d
  | [c], _ => c
  | _ :: c :: rest, d => lastD (c :: rest) d

/-- Closed-form description of `tokenizeLine`, stated independently of
the backtracking search.  Writing `ds` for the maximal leading digit
run and `r` for the rest of the line: when `ds` is empty the name
portion is the whole line, except that a leading x or X is stripped
when something follows it; when `ds` is nonempty the quantity group is
`ds` and the name portion is `r`, except that a leading x or X of `r`
is stripped when something follows it; and a line consisting only of
digits backtracks, giving quantity group `ds` minus its last digit and
that last digit as the name (a single-digit line gives no quantity
group and the digit as the name).  A name portion that still contains
a carriage return after left-trimming makes the whole regex fail, so
the line is dropped.  Otherwise the name is trimmed, and empty names
and comment markers are discarded. -/
def tokenizeLineSpec (line : Str) : Option DeckEntry :=
  match line with
  | [] => none
  | _ :: _ =>
    let ds := line.takeWhile Char.isDigit
    let r := line.dropWhile Char.isDigit
    let gr : Option Str × Str :=
      if ds.isEmpty then
        match line with
        | c :: rest => if isXChar c ∧ ¬rest.isEmpty then (none, rest) else (none, line)
        | [] => (none, line)
      else
        match r with
        | c :: rest => if isXChar c ∧ ¬rest.isEmpty then (some ds, rest) else (some ds, r)
        | [] =>
          if 2 ≤ ds.length then (some ds.dropLast, [lastD ds '0'])
          else (none, ds)
    if !(trimL gr.2).all isDotChar then none
    else finishEntry gr.1 (trim gr.2)

/-! ## Catalog records and the lookup provider

`CatalogRecord` models the card object returned by the external catalog,
restricted to the fields the embedded code reads.  The two image fields
model the already-coalesced expressions
image_uris?.normal || card_faces?.[0]?.image_uris?.normal (and the small
variant).  A lookup provider is a bundle of oracle functions, one per
endpoint the engine calls; each either returns parsed JSON data or fails
(non-ok status or network error, the two are not distinguished by the
callers). -/

structure CatalogRecord where
  id : Str
  name : Str
  set : Str
  set_name : Str
  collector_number : Str
  rarity : Str
  colors : List Str
  color_identity : List Str
  mana_cost : Str
  cmc : Nat
  type_line : Str
  oracle_text : Str
  imageNormal : Option Str
  imageSmall : Option Str
  prices : Str
  legalities : Str
deriving DecidableEq, Repr, Inhabited

/-- The behaviour of the external catalog during one run: one oracle per
endpoint consumed by the resolution engine.  `fuzzyNamed` models
GET cards/named?fuzzy= (a single best-match record or a failure);
`searchLang` models GET cards/search?q=NAME+lang:L (the parsed data
array, or a transport failure); `searchAny` models
GET cards/search?q=NAME+lang:any; `collectionPost` models one
POST cards/collection call for one chunk of at most 75 identifiers
(the parsed data array, with a missing data field modelled as the empty
list, or a transport failure). -/
structure Provider where
  fuzzyNamed : Str → Except String CatalogRecord
  searchLang : Str → Str → Except String (List CatalogRecord)
  searchAny : Str → Except String (List CatalogRecord)
  collectionPost : List Str → Except String (List CatalogRecord)

/-- searchCardInLanguage: scoped search, first result, or the error
thrown when the data array is empty. -/
def searchCardInLanguage (p : Provider) (name : Str) (lang : Str) :
    Except String CatalogRecord :=
  match p.searchLang name lang with
  | .error e => .error e
  | .ok data =>
    match data with
    | r :: _ => .ok r
    | [] => .error "Card not found in specified language"

/-- searchCardInAnyLanguage: unrestricted-language search, first result,
or the error thrown when the data array is empty. -/
def searchCardInAnyLanguage (p : Provider) (name : Str) :
    Except String CatalogRecord :=
  match p.searchAny name with
  | .error e => .error e
  | .ok data =>
    match data with
    | r :: _ => .ok r
    | [] => .error "Card not found"

/-- The truthiness test lang && lang !== 'en' (an absent or empty
language string is falsy). -/
def nonEnglish (lang : Option Str) : Bool :=
  match lang with
  | some l => !l.isEmpty && l ≠ "en".toList
  | none => false

/-- getCardByFuzzyName: try the unscoped fuzzy lookup; on failure,
return the language-scoped search when a non-English language is set,
otherwise the any-language search. -/
def getCardByFuzzyName (p : Provider) (name : Str) (lang : Option Str) :
    Except String CatalogRecord :=
  match p.fuzzyNamed name with
  | .ok card => .ok card
  | .error _ =>
    if nonEnglish lang then searchCardInLanguage p name (lang.getD [])
    else searchCardInAnyLanguage p name

/-! ## Batched lookup (getCardCollection) -/

/-- The chunking loop of getCardCollection: identifiers.slice(i, i+75)
for i = 0, 75, 150, ... -/
def chunks75 : List Str → List (List Str)
  | [] => []
  | a :: rest => ((a :: rest).take 75) :: chunks75 ((a :: rest).drop 75)
termination_by l => l.length
decreasing_by
  simp only [List.length_drop, List.length_cons]
  omega

/-- getCardCollection: issue one POST per chunk, sequentially, spreading
each response's data into the result; the first failing chunk call
propagates as the failure of the whole batched call. -/
def postChunks (fetch : List Str → Except String (List CatalogRecord)) :
    List (List Str) → Except String (List CatalogRecord)
  | [] => .ok []
  | c :: rest =>
    match fetch c with
    | .error e => .error e
    | .ok data =>
      match postChunks fetch rest with
      | .error e => .error e
      | .ok more => .ok (data ++ more)

/-- getCardCollection, as a function of the chunk-call oracle. -/
def getCardCollection (fetch : List Str → Except String (List CatalogRecord))
    (identifiers : List Str) : Except String (List CatalogRecord) :=
  postChunks fetch (chunks75 identifiers)

/-- The chunks actually sent over the network during a run of
getCardCollection: the loop awaits each chunk call in turn and an
exception aborts the loop, so the trace stops at the first failure. -/
def sentChunks (fetch : List Str → Except String (List CatalogRecord)) :
    List (List Str) → List (List Str)
  | [] => []
  | c :: rest =>
    match fetch c with
    | .error _ => [c]
    | .ok _ => c :: sentChunks fetch rest

/-- The call trace of getCardCollection on a full identifier list. -/
def collectionCalls (fetch : List Str → Except String (List CatalogRecord))
    (identifiers : List Str) : List (List Str) :=
  sentChunks fetch (chunks75 identifiers)

/-! ## Bulk resolution (parseDeckList) -/

/-- A resolved decklist entry: { ...card, cardData, found }. -/
structure ResolvedEntry where
  name : Str
  quantity : Nat
  cardData : Option CatalogRecord
  found : Bool
deriving DecidableEq, Repr

/-- The searchLang variable of the fallback loop:
lang || 'any' (an absent or empty language preference falls back to the
literal string any). -/
def effectiveLang (lang : Option Str) : Str :=
  match lang with
  | some l => if l.isEmpty then "any".toList else l
  | none => "any".toList

/-- The per-entry fallback pass of parseDeckList: for every entry still
unmatched after the batch call, try the any-language search (or the
language-scoped search when a language preference is set), sequentially
and in order; a failure leaves the entry unchanged. -/
def fallbackPass (p : Provider) (lang : Option Str) :
    List ResolvedEntry → List ResolvedEntry
  | [] => []
  | r :: rest =>
    let r' :=
      if r.found then r
      else
        let attempt :=
          if effectiveLang lang = "any".toList then searchCardInAnyLanguage p r.name
          else searchCardInLanguage p r.name (effectiveLang lang)
        match attempt with
        | .ok card => { r with cardData := some card, found := true }
        | .error _ => r
    r' :: fallbackPass p lang rest

/-- The batch-matching step of parseDeckList: match each tokenized card
against the batch results by case-insensitive name equality. -/
def matchBatch (cardData : List CatalogRecord) (cards : List DeckEntry) :
    List ResolvedEntry :=
  cards.map (fun c =>
    match cardData.find? (fun d => lowerStr d.name = lowerStr c.name) with
    | some d => ⟨c.name, c.quantity, some d, true⟩
    | none => ⟨c.name, c.quantity, none, false⟩)

/-- parseDeckList: tokenize, batch-resolve all names in one
getCardCollection call, match batch results by case-insensitive name,
then run the per-entry fallback pass over the unmatched entries.  A
failure of the batch call is caught and yields one not-found entry per
tokenized card. -/
def parseDeckList (p : Provider) (decklistText : Str) (lang : Option Str) :
    List ResolvedEntry :=
  match getCardCollection p.collectionPost ((tokenize decklistText).map (·.name)) with
  | .error _ => (tokenize decklistText).map (fun c => ⟨c.name, c.quantity, none, false⟩)
  | .ok cardData => fallbackPass p lang (matchBatch cardData (tokenize decklistText))

/-! ## Rate limiter (rateLimitedFetch)

Wall-clock time is modelled in integer milliseconds.  `lastRequestTime`
is the module-level variable; a call that arrives when less than 100ms
have passed since the recorded time sleeps the remaining delta and then
fires.  `fireTime last now` is the instant the network request is
issued, which is also the new value of lastRequestTime. -/

def fireTime (last now : Int) : Int :=
  if now - last < 100 then now + (100 - (now - last)) else now

/-- Three sequentially awaited lookups, each of whose network round trip
completes instantly: the k-th call arrives at the instant the previous
one fired.  Returns the instant the third request fires. -/
def thirdFireTime (last0 t0 : Int) : Int :=
  let f1 := fireTime last0 t0
  let f2 := fireTime f1 f1
  fireTime f2 f2

/-! ## Collection storage (storageService.js, CollectionContext.js) -/

/-- A persisted collection row.  prices and legalities are carried as
opaque snapshots; colors and colorIdentity as string lists. -/
structure CollectionEntry where
  id : Str
  scryfallId : Str
  name : Str
  setCode : Str
  setName : Str
  collectorNumber : Str
  rarity : Str
  colors : List Str
  colorIdentity : List Str
  manaCost : Str
  cmc : Nat
  typeLine : Str
  oracleText : Str
  imageUrl : Option Str
  imageUrlSmall : Option Str
  prices : Str
  legalities : Str
  quantity : Int
  addedAt : Int
  foil : Bool
  condition : Str
  notes : Str
deriving DecidableEq, Repr

/-- The identity test used by the collection operations:
c.id === card.id || c.scryfallId === card.id. -/
def matchesId (cardId : Str) (c : CollectionEntry) : Bool :=
  c.id = cardId || c.scryfallId = cardId

/-- The row pushed when a card is new to the collection (the object
literal of addCardToCollection; `now` models new Date().toISOString()). -/
def newCollectionEntry (card : CatalogRecord) (quantity : Int) (now : Int) :
    CollectionEntry where
  id := card.id
  scryfallId := card.id
  name := card.name
  setCode := card.set
  setName := card.set_name
  collectorNumber := card.collector_number
  rarity := card.rarity
  colors := card.colors
  colorIdentity := card.color_identity
  manaCost := card.mana_cost
  cmc := card.cmc
  typeLine := card.type_line
  oracleText := card.oracle_text
  imageUrl := card.imageNormal
  imageUrlSmall := card.imageSmall
  prices := card.prices
  legalities := card.legalities
  quantity := quantity
  addedAt := now
  foil := false
  condition := "NM".toList
  notes := []

/-- In-place update of the element at an index (collection[i] = ...). -/
def modifyAt (l : List α) (i : Nat) (f : α → α) : List α :=
  match l[i]? with
  | some a => l.set i (f a)
  | none => l

/-- addCardToCollection: find by id or legacy alias; increment the
existing row's quantity, or push a fresh snapshot row. -/
def addCardToCollection (col : List CollectionEntry) (card : CatalogRecord)
    (quantity : Int) (now : Int) : List CollectionEntry :=
  match col.findIdx? (matchesId card.id) with
  | some i => modifyAt col i (fun c => { c with quantity := c.quantity + quantity })
  | none => col ++ [newCollectionEntry card quantity now]

/-- removeCardFromCollection: find by id or legacy alias; decrement, and
splice the row out when the decremented quantity is ≤ 0. -/
def removeCardFromCollection (col : List CollectionEntry) (cardId : Str)
    (quantity : Int) : List CollectionEntry :=
  match col.findIdx? (matchesId cardId) with
  | some i =>
    match col[i]? with
    | some c =>
      if c.quantity - quantity ≤ 0 then col.eraseIdx i
      else col.set i { c with quantity := c.quantity - quantity }
    | none => col
  | none => col

/-- The mutable local-only fields of a collection row (the update
objects passed by the screens: quantity, foil, condition, notes);
an absent field leaves the row's field unchanged (object spread). -/
structure EntryUpdates where
  quantity : Option Int
  foil : Option Bool
  condition : Option Str
  notes : Option Str
deriving DecidableEq, Repr

/-- { ...collection[i], ...updates }. -/
def applyUpdates (u : EntryUpdates) (c : CollectionEntry) : CollectionEntry :=
  { c with
    quantity := u.quantity.getD c.quantity
    foil := u.foil.getD c.foil
    condition := u.condition.getD c.condition
    notes := u.notes.getD c.notes }

/-- updateCardInCollection. -/
def updateCardInCollection (col : List CollectionEntry) (cardId : Str)
    (updates : EntryUpdates) : List CollectionEntry :=
  match col.findIdx? (matchesId cardId) with
  | some i => modifyAt col i (applyUpdates updates)
  | none => col

/-- One step of the loop of addCardsToCollection in CollectionContext:
identical matching and push logic to addCardToCollection. -/
def addCardsToCollection (col : List CollectionEntry)
    (cards : List (CatalogRecord × Int)) (now : Int) : List CollectionEntry :=
  match cards with
  | [] => col
  | (card, quantity) :: rest =>
    addCardsToCollection (addCardToCollection col card quantity now) rest now

/-- The identity test of addDecklistToCollection, which additionally
matches on exact display name:
c.id === card.id || c.scryfallId === card.id || c.name === card.name. -/
def matchesIdOrName (card : CatalogRecord) (c : CollectionEntry) : Bool :=
  c.id = card.id || c.scryfallId = card.id || c.name = card.name

/-- One iteration of addDecklistToCollection: entries without a record
are skipped; a match by id, legacy alias or exact name is incremented,
otherwise a fresh snapshot row is pushed. -/
def addDecklistItem (col : List CollectionEntry) (item : ResolvedEntry)
    (now : Int) : List CollectionEntry :=
  if !item.found then col
  else
    match item.cardData with
    | none => col
    | some card =>
      match col.findIdx? (matchesIdOrName card) with
      | some i => modifyAt col i (fun c => { c with quantity := c.quantity + (item.quantity : Int) })
      | none => col ++ [newCollectionEntry card (item.quantity : Int) now]

/-- addDecklistToCollection: fold the parsed entries into the loaded
collection. -/
def addDecklistToCollection (col : List CollectionEntry)
    (parsedCards : List ResolvedEntry) (now : Int) : List CollectionEntry :=
  match parsedCards with
  | [] => col
  | item :: rest => addDecklistToCollection (addDecklistItem col item now) rest now

/-! ## Deck storage -/

/-- A deck card reference (the lighter snapshot pushed by
addCardToDeck / createDeckFromDecklist). -/
structure DeckCardRef where
  id : Str
  scryfallId : Str
  name : Str
  imageUrl : Option Str
  manaCost : Str
  typeLine : Str
  quantity : Int
deriving DecidableEq, Repr

/-- The identity test of addCardToDeck:
c.id === card.id || c.scryfallId === card.id || c.name === card.name. -/
def deckMatches (cardId cardName : Str) (c : DeckCardRef) : Bool :=
  c.id = cardId || c.scryfallId = cardId || c.name = cardName

/-- The identity test of removeCardFromDeck and updateCardInDeck:
c.id === cardId || c.scryfallId === cardId. -/
def deckMatchesId (cardId : Str) (c : DeckCardRef) : Bool :=
  c.id = cardId || c.scryfallId = cardId

/-- addCardToDeck, restricted to the card list of the found deck (the
deck lookup and updatedAt refresh are handled in `Deck`-level wrappers
below).  The incoming card is a catalog record. -/
def addCardToDeckCards (cards : List DeckCardRef) (card : CatalogRecord)
    (quantity : Int) : List DeckCardRef :=
  match cards.findIdx? (deckMatches card.id card.name) with
  | some i => modifyAt cards i (fun c => { c with quantity := c.quantity + quantity })
  | none =>
    cards ++ [{ id := card.id, scryfallId := card.id, name := card.name,
                imageUrl := card.imageSmall, manaCost := card.mana_cost,
                typeLine := card.type_line, quantity := quantity }]

/-- removeCardFromDeck, restricted to the card list: decrement the
matched row, splicing it out when the decremented quantity is ≤ 0. -/
def removeCardFromDeckCards (cards : List DeckCardRef) (cardId : Str)
    (quantity : Int) : List DeckCardRef :=
  match cards.findIdx? (deckMatchesId cardId) with
  | some i =>
    match cards[i]? with
    | some c =>
      if c.quantity - quantity ≤ 0 then cards.eraseIdx i
      else cards.set i { c with quantity := c.quantity - quantity }
    | none => cards
  | none => cards

/-- updateCardInDeck, restricted to the card list: a new quantity ≤ 0
splices the row out, otherwise the quantity is overwritten. -/
def updateCardInDeckCards (cards : List DeckCardRef) (cardId : Str)
    (quantity : Int) : List DeckCardRef :=
  match cards.findIdx? (deckMatchesId cardId) with
  | some i =>
    match cards[i]? with
    | some c =>
      if quantity ≤ 0 then cards.eraseIdx i
      else cards.set i { c with quantity := quantity }
    | none => cards
  | none => cards

/-- A persisted deck. -/
structure Deck where
  id : Str
  name : Str
  format : Str
  commander : Option DeckCardRef
  cards : List DeckCardRef
  description : Str
  createdAt : Int
  updatedAt : Int
deriving DecidableEq, Repr

/-- removeCardFromDeck at the decks-list level: find the deck, rewrite
its card list and refresh updatedAt; a missing deck id leaves the list
untouched (the function returns null before saving). -/
def removeCardFromDeck (decks : List Deck) (deckId cardId : Str)
    (quantity : Int) (now : Int) : List Deck :=
  match decks.findIdx? (fun d => d.id = deckId) with
  | some i =>
    modifyAt decks i (fun d =>
      { d with cards := removeCardFromDeckCards d.cards cardId quantity,
               updatedAt := now })
  | none => decks

/-- updateCardInDeck at the decks-list level. -/
def updateCardInDeck (decks : List Deck) (deckId cardId : Str)
    (quantity : Int) (now : Int) : List Deck :=
  match decks.findIdx? (fun d => d.id = deckId) with
  | some i =>
    modifyAt decks i (fun d =>
      { d with cards := updateCardInDeckCards d.cards cardId quantity,
               updatedAt := now })
  | none => decks

/-- addCardToDeck at the decks-list level. -/
def addCardToDeck (decks : List Deck) (deckId : Str) (card : CatalogRecord)
    (quantity : Int) (now : Int) : List Deck :=
  match decks.findIdx? (fun d => d.id = deckId) with
  | some i =>
    modifyAt decks i (fun d =>
      { d with cards := addCardToDeckCards d.cards card quantity,
               updatedAt := now })
  | none => decks

/-! ## Operation sequences and invariants -/

/-- The collection-mutating operations reachable from the screens. -/
inductive CollectionOp where
  | add (card : CatalogRecord) (quantity : Int) (now : Int)
  | addMany (cards : List (CatalogRecord × Int)) (now : Int)
  | addDecklist (parsedCards : List ResolvedEntry) (now : Int)
  | remove (cardId : Str) (quantity : Int)
  | update (cardId : Str) (updates : EntryUpdates)
deriving Repr

/-- Apply one collection operation. -/
def applyCollectionOp (col : List CollectionEntry) : CollectionOp → List CollectionEntry
  | .add card q now => addCardToCollection col card q now
  | .addMany cards now => addCardsToCollection col cards now
  | .addDecklist parsed now => addDecklistToCollection col parsed now
  | .remove cardId q => removeCardFromCollection col cardId q
  | .update cardId u => updateCardInCollection col cardId u

/-- Apply a sequence of collection operations, oldest first. -/
def applyCollectionOps (col : List CollectionEntry) :
    List CollectionOp → List CollectionEntry
  | [] => col
  | op :: rest => applyCollectionOps (applyCollectionOp col op) rest

/-- Two rows collide when some single catalog id would match both
(through the primary key or the legacy alias of either row). -/
def keyClash (a b : CollectionEntry) : Bool :=
  a.id = b.id || a.id = b.scryfallId || a.scryfallId = b.id || a.scryfallId = b.scryfallId

/-- At most one row per distinct catalog id, with matching through both
the primary key and the legacy alias: no two rows collide. -/
def uniqueById : List CollectionEntry → Bool
  | [] => true
  | c :: rest => rest.all (fun c2 => !keyClash c c2) && uniqueById rest

/-- Every persisted row has positive quantity. -/
def allPositive (col : List CollectionEntry) : Bool :=
  col.all (fun c => 0 < c.quantity)

/-- Every deck card row has quantity ≥ 1. -/
def deckAllPositive (cards : List DeckCardRef) : Bool :=
  cards.all (fun c => 1 ≤ c.quantity)

/-- The add/remove operations of the collection (for the positivity
claim, which is about sequences of adds and removals). -/
inductive AddRemoveOp where
  | add (card : CatalogRecord) (quantity : Int) (now : Int)
  | remove (cardId : Str) (quantity : Int)
deriving Repr

/-- Apply a sequence of add/remove operations, oldest first. -/
def applyAddRemoveOps (col : List CollectionEntry) :
    List AddRemoveOp → List CollectionEntry
  | [] => col
  | .add card q now :: rest => applyAddRemoveOps (addCardToCollection col card q now) rest
  | .remove cardId q :: rest => applyAddRemoveOps (removeCardFromCollection col cardId q) rest

/-- Incoming quantities of the add operations are ≥ 1. -/
def addsPositive : List AddRemoveOp → Bool
  | [] => true
  | .add _ q _ :: rest => (1 ≤ q) && addsPositive rest
  | .remove _ _ :: rest => addsPositive rest

/-- The deck-card mutations reachable from the screens. -/
inductive DeckOp where
  | add (card : CatalogRecord) (quantity : Int)
  | remove (cardId : Str) (quantity : Int)
  | update (cardId : Str) (quantity : Int)
deriving Repr

/-- Apply a sequence of deck-card mutations to a card list. -/
def applyDeckOps (cards : List DeckCardRef) : List DeckOp → List DeckCardRef
  | [] => cards
  | .add card q :: rest => applyDeckOps (addCardToDeckCards cards card q) rest
  | .remove cardId q :: rest => applyDeckOps (removeCardFromDeckCards cards cardId q) rest
  | .update cardId q :: rest => applyDeckOps (updateCardInDeckCards cards cardId q) rest

/-- Incoming quantities of the deck add operations are ≥ 1. -/
def deckAddsPositive : List DeckOp → Bool
  | [] => true
  | .add _ q :: rest => (1 ≤ q) && deckAddsPositive rest
  | .remove _ _ :: rest => deckAddsPositive rest
  | .update _ _ :: rest => deckAddsPositive rest

/-! ## Concrete sample data (used by witnesses and counterexamples) -/

/-- A blank catalog record, to be filled per sample. -/
def blankRecord : CatalogRecord where
  id := []
  name := []
  set := []
  set_name := []
  collector_number := []
  rarity := []
  colors := []
  color_identity := []
  mana_cost := []
  cmc := 0
  type_line := []
  oracle_text := []
  imageNormal := none
  imageSmall := none
  prices := []
  legalities := []

/-- A sample record with catalog id a. -/
def cardA : CatalogRecord := { blankRecord with id := ['a'], name := ['N'] }

/-- A sample record with catalog id b and the same display name. -/
def cardB : CatalogRecord := { blankRecord with id := ['b'], name := ['N'] }

/-- A sample collection row for cardA with quantity 2. -/
def entryA : CollectionEntry := newCollectionEntry cardA 2 0

/-- A sample deck row for cardA with quantity 4. -/
def deckRowA : DeckCardRef :=
  { id := cardA.id, scryfallId := cardA.id, name := cardA.name,
    imageUrl := none, manaCost := [], typeLine := [], quantity := 4 }

/-- A provider whose fuzzy lookup and language-scoped search fail while
the any-language search succeeds. -/
def langGapProvider : Provider where
  fuzzyNamed := fun _ => .error "fuzzy failed"
  searchLang := fun _ _ => .ok []
  searchAny := fun _ => .ok [cardA]
  collectionPost := fun _ => .error "not used"

/-! # Theorems -/

section Lemmas

/-- Unfolding findIdx? at default start index 0. -/
theorem findIdx?_cons_zero (p : α → Bool) (a : α) (l : List α) :
    (a :: l).findIdx? p = if p a then some 0 else (l.findIdx? p).map (· + 1) := by
  rw [List.findIdx?_cons]
  cases h : p a
  · simp [List.findIdx?_succ]
  · simp

theorem modifyAt_cons_zero (a : α) (l : List α) (f : α → α) :
    modifyAt (a :: l) 0 f = f a :: l := by
  simp [modifyAt]

theorem modifyAt_cons_succ (a : α) (l : List α) (i : Nat) (f : α → α) :
    modifyAt (a :: l) (i + 1) f = a :: modifyAt l i f := by
  simp only [modifyAt, List.getElem?_cons_succ]
  cases h : l[i]? <;> simp [h, List.set_cons_succ]

end Lemmas

section RateLimiter

theorem fireTime_self (t : Int) : fireTime t t = t + 100 := by
  unfold fireTime
  norm_num

theorem fireTime_ge (last now : Int) : now ≤ fireTime last now := by
  unfold fireTime
  split <;> omega

/-- C8: the lookup client enforces a 100ms minimum spacing: a call
arriving less than 100ms after the recorded request time fires exactly
at the recorded time plus 100 (waiting the remaining delta), a call
arriving later fires immediately, and three sequentially awaited
instant lookups finish at least 200ms after the first call arrives. -/
theorem rateLimiter_minimum_spacing :
    (∀ last now : Int, now < last + 100 → fireTime last now = last + 100)
    ∧ (∀ last now : Int, last + 100 ≤ now → fireTime last now = now)
    ∧ (∀ last0 t0 : Int, t0 + 200 ≤ thirdFireTime last0 t0) := by
  refine ⟨?_, ?_, ?_⟩
  · intro last now h
    unfold fireTime
    rw [if_pos (by omega)]
    omega
  · intro last now h
    unfold fireTime
    rw [if_neg (by omega)]
  · intro last0 t0
    have h0 := fireTime_ge last0 t0
    unfold thirdFireTime
    rw [fireTime_self, fireTime_self]
    omega

/-- Witness for C8 at concrete instants. -/
theorem rateLimiter_minimum_spacing_witness :
    (999 : Int) < 950 + 100 ∧ fireTime 950 999 = 950 + 100
    ∧ (950 : Int) + 100 ≤ 2000 ∧ fireTime 950 2000 = 2000 :=
  ⟨by norm_num, rateLimiter_minimum_spacing.1 950 999 (by norm_num),
   by norm_num, rateLimiter_minimum_spacing.2.1 950 2000 (by norm_num)⟩

end RateLimiter

section BatchLookup

theorem chunks75_nil : chunks75 [] = [] := by rw [chunks75]

theorem chunks75_cons (a : Str) (rest : List Str) :
    chunks75 (a :: rest) = ((a :: rest).take 75) :: chunks75 ((a :: rest).drop 75) := by
  rw [chunks75]

theorem chunks75_length (l : List Str) :
    (chunks75 l).length = (l.length + 74) / 75 := by
  induction l using chunks75.induct with
  | case1 => simp [chunks75_nil]
  | case2 a rest ih =>
    rw [chunks75_cons]
    simp only [List.length_cons, ih, List.length_drop]
    rcases Nat.lt_or_ge (rest.length + 1) 75 with h | h
    · have h1 : rest.length + 1 - 75 = 0 := by omega
      rw [h1]
      have h2 : (rest.length + 1 + 74) / 75 = 1 :=
        Nat.div_eq_of_lt_le (by omega) (by omega)
      omega
    · have h1 : rest.length + 1 - 75 + 74 + 75 = rest.length + 1 + 74 := by omega
      have h2 := Nat.add_div_right (rest.length + 1 - 75 + 74) (show 0 < 75 by norm_num)
      omega

theorem chunks75_le (l : List Str) :
    (chunks75 l).all (fun c => c.length ≤ 75) = true := by
  induction l using chunks75.induct with
  | case1 => simp [chunks75_nil]
  | case2 a rest ih =>
    rw [chunks75_cons, List.all_cons, ih]
    simp [List.length_take]

theorem chunks75_flatten (l : List Str) : (chunks75 l).flatten = l := by
  induction l using chunks75.induct with
  | case1 => simp [chunks75_nil]
  | case2 a rest ih =>
    rw [chunks75_cons, List.flatten_cons, ih, List.take_append_drop]

theorem postChunks_ok (f : List Str → List CatalogRecord) (cl : List (List Str)) :
    postChunks (fun c => .ok (f c)) cl = .ok (cl.map f).flatten := by
  induction cl with
  | nil => rfl
  | cons c rest ih => simp [postChunks, ih]

theorem sentChunks_ok (f : List Str → List CatalogRecord) (cl : List (List Str)) :
    sentChunks (fun c => .ok (f c)) cl = cl := by
  induction cl with
  | nil => rfl
  | cons c rest ih => simp [sentChunks, ih]

theorem postChunks_ok_of_mem (fetch : List Str → Except String (List CatalogRecord))
    (cl : List (List Str)) (v : List CatalogRecord) (h : postChunks fetch cl = .ok v) :
    ∀ c ∈ cl, ∃ rs, fetch c = .ok rs := by
  induction cl generalizing v with
  | nil => intro c hc; cases hc
  | cons c0 rest ih =>
    intro c hc
    rw [postChunks] at h
    rcases hfc : fetch c0 with e | data
    · rw [hfc] at h; cases h
    · rw [hfc] at h
      rcases List.mem_cons.mp hc with hc | hc
      · exact ⟨data, hc ▸ hfc⟩
      · rcases hrest : postChunks fetch rest with e | more
        · rw [hrest] at h; cases h
        · exact ih more hrest c hc

/-- C7: the batched lookup splits the identifier list into
ceil(n/75) consecutive chunks of at most 75 identifiers whose
concatenation is the input; with an all-success chunk oracle it issues
exactly one call per chunk (the trace equals the chunk list) and
returns the concatenation of the per-chunk results in chunk order; and
if any chunk's call fails, the whole batched call fails. -/
theorem getCardCollection_chunking :
    (∀ ids : List Str,
      (chunks75 ids).length = (ids.length + 74) / 75
      ∧ (chunks75 ids).all (fun c => c.length ≤ 75) = true
      ∧ (chunks75 ids).flatten = ids)
    ∧ (∀ (f : List Str → List CatalogRecord) (ids : List Str),
      getCardCollection (fun c => .ok (f c)) ids = .ok ((chunks75 ids).map f).flatten
      ∧ collectionCalls (fun c => .ok (f c)) ids = chunks75 ids)
    ∧ (∀ (fetch : List Str → Except String (List CatalogRecord)) (ids : List Str)
        (c : List Str) (e : String), c ∈ chunks75 ids → fetch c = .error e →
        ∃ e2, getCardCollection fetch ids = .error e2) := by
  refine ⟨fun ids => ⟨chunks75_length ids, chunks75_le ids, chunks75_flatten ids⟩,
    fun f ids => ⟨postChunks_ok f (chunks75 ids), sentChunks_ok f (chunks75 ids)⟩,
    fun fetch ids c e hmem hferr => ?_⟩
  rcases hres : getCardCollection fetch ids with e2 | v
  · exact ⟨e2, rfl⟩
  · rcases postChunks_ok_of_mem fetch (chunks75 ids) v hres c hmem with ⟨rs, hok⟩
    rw [hok] at hferr
    cases hferr

/-- Witness for C7: a 2-identifier list forms one chunk, and a failing
chunk call fails the batch. -/
theorem getCardCollection_chunking_witness :
    (['n'] :: [['m']] ∈ chunks75 [['n'], ['m']])
    ∧ ((fun _ : List Str => (Except.error "boom" : Except String (List CatalogRecord))) (['n'] :: [['m']]) = .error "boom")
    ∧ ∃ e2, getCardCollection (fun _ => .error "boom") [['n'], ['m']] = .error e2 :=
  ⟨by simp [chunks75],
   rfl,
   getCardCollection_chunking.2.2 (fun _ => .error "boom") [['n'], ['m']]
     (['n'] :: [['m']]) "boom" (by simp [chunks75]) rfl⟩

end BatchLookup

section CollectionOps

theorem addCard_nil (card : CatalogRecord) (q now : Int) :
    addCardToCollection [] card q now = [newCollectionEntry card q now] := by
  simp [addCardToCollection, List.findIdx?]

theorem addCard_cons_match (d : CollectionEntry) (rest : List CollectionEntry)
    (card : CatalogRecord) (q now : Int) (hm : matchesId card.id d = true) :
    addCardToCollection (d :: rest) card q now
      = { d with quantity := d.quantity + q } :: rest := by
  unfold addCardToCollection
  rw [findIdx?_cons_zero, if_pos hm]
  simp [modifyAt_cons_zero]

theorem addCard_cons_nomatch (d : CollectionEntry) (rest : List CollectionEntry)
    (card : CatalogRecord) (q now : Int) (hm : matchesId card.id d = false) :
    addCardToCollection (d :: rest) card q now
      = d :: addCardToCollection rest card q now := by
  unfold addCardToCollection
  rw [findIdx?_cons_zero, if_neg (by simp [hm])]
  cases hr : rest.findIdx? (matchesId card.id) with
  | none => simp [hr]
  | some i => simp [hr, modifyAt_cons_succ]

theorem removeCard_nil (cardId : Str) (q : Int) :
    removeCardFromCollection [] cardId q = [] := by
  simp [removeCardFromCollection, List.findIdx?]

theorem removeCard_cons_match (d : CollectionEntry) (rest : List CollectionEntry)
    (cardId : Str) (q : Int) (hm : matchesId cardId d = true) :
    removeCardFromCollection (d :: rest) cardId q
      = if d.quantity - q ≤ 0 then rest
        else { d with quantity := d.quantity - q } :: rest := by
  unfold removeCardFromCollection
  rw [findIdx?_cons_zero, if_pos hm]
  simp only [List.getElem?_cons_zero, List.eraseIdx_cons_zero, List.set_cons_zero]

theorem removeCard_cons_nomatch (d : CollectionEntry) (rest : List CollectionEntry)
    (cardId : Str) (q : Int) (hm : matchesId cardId d = false) :
    removeCardFromCollection (d :: rest) cardId q
      = d :: removeCardFromCollection rest cardId q := by
  unfold removeCardFromCollection
  rw [findIdx?_cons_zero, if_neg (by simp [hm])]
  cases hr : rest.findIdx? (matchesId cardId) with
  | none => simp [hr]
  | some i =>
    simp only [hr, Option.map_some', List.getElem?_cons_succ]
    cases hg : rest[i]? with
    | none => simp
    | some c =>
      simp only
      split
      · rw [List.eraseIdx_cons_succ]
      · rw [List.set_cons_succ]

theorem addCard_eq_set (col : List CollectionEntry) (card : CatalogRecord)
    (q now : Int) (i : Nat) (c : CollectionEntry)
    (hidx : col.findIdx? (matchesId card.id) = some i) (hget : col[i]? = some c) :
    addCardToCollection col card q now
      = col.set i { c with quantity := c.quantity + q } := by
  induction col generalizing i with
  | nil => simp [List.findIdx?] at hidx
  | cons d rest ih =>
    rw [findIdx?_cons_zero] at hidx
    cases hm : matchesId card.id d with
    | true =>
      rw [if_pos hm] at hidx
      injection hidx with hi
      subst hi
      rw [List.getElem?_cons_zero] at hget
      injection hget with hc
      subst hc
      rw [addCard_cons_match d rest card q now hm, List.set_cons_zero]
    | false =>
      rw [if_neg (by simp [hm])] at hidx
      rcases Option.map_eq_some'.mp hidx with ⟨j, hj, hij⟩
      subst hij
      rw [List.getElem?_cons_succ] at hget
      rw [addCard_cons_nomatch d rest card q now hm, ih j hj hget,
        List.set_cons_succ]

/-- C10: adding a card whose id already matches a collection row only
bumps that row's quantity: the result is the original list with the
matched row replaced by a copy whose quantity grew by the given amount,
so its other fields, every other row, the row order and the list length
are unchanged. -/
theorem addCardToCollection_frame :
    ∀ (col : List CollectionEntry) (card : CatalogRecord) (q now : Int)
      (i : Nat) (c : CollectionEntry),
      col.findIdx? (matchesId card.id) = some i → col[i]? = some c →
      addCardToCollection col card q now
          = col.set i { c with quantity := c.quantity + q }
        ∧ (addCardToCollection col card q now).length = col.length
        ∧ (∀ j, j ≠ i → (addCardToCollection col card q now)[j]? = col[j]?)
        ∧ (addCardToCollection col card q now)[i]?
            = some { c with quantity := c.quantity + q } := by
  intro col card q now i c hidx hget
  have heq := addCard_eq_set col card q now i c hidx hget
  have hlt : i < col.length := by
    by_contra hge
    rw [List.getElem?_eq_none (by omega)] at hget
    cases hget
  refine ⟨heq, ?_, ?_, ?_⟩
  · rw [heq, List.length_set]
  · intro j hj
    rw [heq, List.getElem?_set_ne (fun h => hj h.symm)]
  · rw [heq, List.getElem?_set_self hlt]

/-- Witness for C10: bumping the sample row by 3. -/
theorem addCardToCollection_frame_witness :
    [entryA].findIdx? (matchesId cardA.id) = some 0
    ∧ [entryA][0]? = some entryA
    ∧ addCardToCollection [entryA] cardA 3 9
        = [entryA].set 0 { entryA with quantity := entryA.quantity + 3 } :=
  ⟨by decide, rfl,
   (addCardToCollection_frame [entryA] cardA 3 9 0 entryA (by decide) rfl).1⟩

theorem addCard_allPositive (col : List CollectionEntry) (card : CatalogRecord)
    (q now : Int) (hq : 1 ≤ q) (h : allPositive col = true) :
    allPositive (addCardToCollection col card q now) = true := by
  induction col with
  | nil =>
    rw [addCard_nil]
    simp [allPositive, newCollectionEntry]
    omega
  | cons d rest ih =>
    rw [allPositive, List.all_cons, Bool.and_eq_true] at h
    cases hm : matchesId card.id d with
    | true =>
      rw [addCard_cons_match d rest card q now hm]
      simp only [allPositive, List.all_cons, Bool.and_eq_true]
      refine ⟨by simp_all; omega, h.2⟩
    | false =>
      rw [addCard_cons_nomatch d rest card q now hm]
      simp only [allPositive, List.all_cons, Bool.and_eq_true]
      exact ⟨h.1, ih h.2⟩

theorem removeCard_allPositive (col : List CollectionEntry) (cardId : Str)
    (q : Int) (h : allPositive col = true) :
    allPositive (removeCardFromCollection col cardId q) = true := by
  induction col with
  | nil => rw [removeCard_nil]; exact h
  | cons d rest ih =>
    rw [allPositive, List.all_cons, Bool.and_eq_true] at h
    cases hm : matchesId cardId d with
    | true =>
      rw [removeCard_cons_match d rest cardId q hm]
      split
      · exact h.2
      · simp only [allPositive, List.all_cons, Bool.and_eq_true]
        refine ⟨by simp; omega, h.2⟩
    | false =>
      rw [removeCard_cons_nomatch d rest cardId q hm]
      simp only [allPositive, List.all_cons, Bool.and_eq_true]
      exact ⟨h.1, ih h.2⟩

theorem applyAddRemoveOps_allPositive (ops : List AddRemoveOp)
    (col : List CollectionEntry) (hops : addsPositive ops = true)
    (h : allPositive col = true) :
    allPositive (applyAddRemoveOps col ops) = true := by
  induction ops generalizing col with
  | nil => exact h
  | cons op rest ih =>
    cases op with
    | add card q now =>
      rw [addsPositive, Bool.and_eq_true] at hops
      have hq : (1 : Int) ≤ q := by
        have := hops.1
        simpa using this
      exact ih (addCardToCollection col card q now) hops.2
        (addCard_allPositive col card q now hq h)
    | remove cardId q =>
      rw [addsPositive] at hops
      exact ih (removeCardFromCollection col cardId q) hops
        (removeCard_allPositive col cardId q h)

end CollectionOps

section DeckOps

theorem removeDeckCards_nil (cardId : Str) (q : Int) :
    removeCardFromDeckCards [] cardId q = [] := by
  simp [removeCardFromDeckCards, List.findIdx?]

theorem removeDeckCards_cons_match (d : DeckCardRef) (rest : List DeckCardRef)
    (cardId : Str) (q : Int) (hm : deckMatchesId cardId d = true) :
    removeCardFromDeckCards (d :: rest) cardId q
      = if d.quantity - q ≤ 0 then rest
        else { d with quantity := d.quantity - q } :: rest := by
  unfold removeCardFromDeckCards
  rw [findIdx?_cons_zero, if_pos hm]
  simp only [List.getElem?_cons_zero, List.eraseIdx_cons_zero, List.set_cons_zero]

theorem removeDeckCards_cons_nomatch (d : DeckCardRef) (rest : List DeckCardRef)
    (cardId : Str) (q : Int) (hm : deckMatchesId cardId d = false) :
    removeCardFromDeckCards (d :: rest) cardId q
      = d :: removeCardFromDeckCards rest cardId q := by
  unfold removeCardFromDeckCards
  rw [findIdx?_cons_zero, if_neg (by simp [hm])]
  cases hr : rest.findIdx? (deckMatchesId cardId) with
  | none => simp [hr]
  | some i =>
    simp only [hr, Option.map_some', List.getElem?_cons_succ]
    cases hg : rest[i]? with
    | none => simp
    | some c =>
      simp only
      split
      · rw [List.eraseIdx_cons_succ]
      · rw [List.set_cons_succ]

theorem updateDeckCards_nil (cardId : Str) (q : Int) :
    updateCardInDeckCards [] cardId q = [] := by
  simp [updateCardInDeckCards, List.findIdx?]

theorem updateDeckCards_cons_match (d : DeckCardRef) (rest : List DeckCardRef)
    (cardId : Str) (q : Int) (hm : deckMatchesId cardId d = true) :
    updateCardInDeckCards (d :: rest) cardId q
      = if q ≤ 0 then rest else { d with quantity := q } :: rest := by
  unfold updateCardInDeckCards
  rw [findIdx?_cons_zero, if_pos hm]
  simp only [List.getElem?_cons_zero, List.eraseIdx_cons_zero, List.set_cons_zero]

theorem updateDeckCards_cons_nomatch (d : DeckCardRef) (rest : List DeckCardRef)
    (cardId : Str) (q : Int) (hm : deckMatchesId cardId d = false) :
    updateCardInDeckCards (d :: rest) cardId q
      = d :: updateCardInDeckCards rest cardId q := by
  unfold updateCardInDeckCards
  rw [findIdx?_cons_zero, if_neg (by simp [hm])]
  cases hr : rest.findIdx? (deckMatchesId cardId) with
  | none => simp [hr]
  | some i =>
    simp only [hr, Option.map_some', List.getElem?_cons_succ]
    cases hg : rest[i]? with
    | none => simp
    | some c =>
      simp only
      split
      · rw [List.eraseIdx_cons_succ]
      · rw [List.set_cons_succ]

theorem addDeckCards_nil (card : CatalogRecord) (q : Int) :
    addCardToDeckCards [] card q
      = [{ id := card.id, scryfallId := card.id, name := card.name,
           imageUrl := card.imageSmall, manaCost := card.mana_cost,
           typeLine := card.type_line, quantity := q }] := by
  simp [addCardToDeckCards, List.findIdx?]

theorem addDeckCards_cons_match (d : DeckCardRef) (rest : List DeckCardRef)
    (card : CatalogRecord) (q : Int) (hm : deckMatches card.id card.name d = true) :
    addCardToDeckCards (d :: rest) card q
      = { d with quantity := d.quantity + q } :: rest := by
  unfold addCardToDeckCards
  rw [findIdx?_cons_zero, if_pos hm]
  simp [modifyAt_cons_zero]

theorem addDeckCards_cons_nomatch (d : DeckCardRef) (rest : List DeckCardRef)
    (card : CatalogRecord) (q : Int) (hm : deckMatches card.id card.name d = false) :
    addCardToDeckCards (d :: rest) card q
      = d :: addCardToDeckCards rest card q := by
  unfold addCardToDeckCards
  rw [findIdx?_cons_zero, if_neg (by simp [hm])]
  cases hr : rest.findIdx? (deckMatches card.id card.name) with
  | none => simp [hr]
  | some i => simp [hr, modifyAt_cons_succ]

theorem removeCard_eq (col : List CollectionEntry) (cardId : Str) (r : Int)
    (i : Nat) (c : CollectionEntry)
    (hidx : col.findIdx? (matchesId cardId) = some i) (hget : col[i]? = some c) :
    removeCardFromCollection col cardId r
      = if c.quantity - r ≤ 0 then col.eraseIdx i
        else col.set i { c with quantity := c.quantity - r } := by
  induction col generalizing i with
  | nil => simp [List.findIdx?] at hidx
  | cons d rest ih =>
    rw [findIdx?_cons_zero] at hidx
    cases hm : matchesId cardId d with
    | true =>
      rw [if_pos hm] at hidx
      injection hidx with hi
      subst hi
      rw [List.getElem?_cons_zero] at hget
      injection hget with hc
      subst hc
      rw [removeCard_cons_match d rest cardId r hm, List.eraseIdx_cons_zero,
        List.set_cons_zero]
    | false =>
      rw [if_neg (by simp [hm])] at hidx
      rcases Option.map_eq_some'.mp hidx with ⟨j, hj, hij⟩
      subst hij
      rw [List.getElem?_cons_succ] at hget
      rw [removeCard_cons_nomatch d rest cardId r hm, ih j hj hget,
        List.eraseIdx_cons_succ, List.set_cons_succ]
      split <;> rfl

theorem removeDeckCards_eq (cards : List DeckCardRef) (cardId : Str) (r : Int)
    (i : Nat) (c : DeckCardRef)
    (hidx : cards.findIdx? (deckMatchesId cardId) = some i)
    (hget : cards[i]? = some c) :
    removeCardFromDeckCards cards cardId r
      = if c.quantity - r ≤ 0 then cards.eraseIdx i
        else cards.set i { c with quantity := c.quantity - r } := by
  induction cards generalizing i with
  | nil => simp [List.findIdx?] at hidx
  | cons d rest ih =>
    rw [findIdx?_cons_zero] at hidx
    cases hm : deckMatchesId cardId d with
    | true =>
      rw [if_pos hm] at hidx
      injection hidx with hi
      subst hi
      rw [List.getElem?_cons_zero] at hget
      injection hget with hc
      subst hc
      rw [removeDeckCards_cons_match d rest cardId r hm, List.eraseIdx_cons_zero,
        List.set_cons_zero]
    | false =>
      rw [if_neg (by simp [hm])] at hidx
      rcases Option.map_eq_some'.mp hidx with ⟨j, hj, hij⟩
      subst hij
      rw [List.getElem?_cons_succ] at hget
      rw [removeDeckCards_cons_nomatch d rest cardId r hm, ih j hj hget,
        List.eraseIdx_cons_succ, List.set_cons_succ]
      split <;> rfl

theorem updateDeckCards_eq (cards : List DeckCardRef) (cardId : Str) (q : Int)
    (i : Nat) (c : DeckCardRef)
    (hidx : cards.findIdx? (deckMatchesId cardId) = some i)
    (hget : cards[i]? = some c) :
    updateCardInDeckCards cards cardId q
      = if q ≤ 0 then cards.eraseIdx i
        else cards.set i { c with quantity := q } := by
  induction cards generalizing i with
  | nil => simp [List.findIdx?] at hidx
  | cons d rest ih =>
    rw [findIdx?_cons_zero] at hidx
    cases hm : deckMatchesId cardId d with
    | true =>
      rw [if_pos hm] at hidx
      injection hidx with hi
      subst hi
      rw [List.getElem?_cons_zero] at hget
      injection hget with hc
      subst hc
      rw [updateDeckCards_cons_match d rest cardId q hm, List.eraseIdx_cons_zero,
        List.set_cons_zero]
    | false =>
      rw [if_neg (by simp [hm])] at hidx
      rcases Option.map_eq_some'.mp hidx with ⟨j, hj, hij⟩
      subst hij
      rw [List.getElem?_cons_succ] at hget
      rw [updateDeckCards_cons_nomatch d rest cardId q hm, ih j hj hget,
        List.eraseIdx_cons_succ, List.set_cons_succ]
      split <;> rfl

/-- C4: removing r copies of a card holding quantity q deletes the row
when r ≥ q and leaves quantity q − r when r < q; any sequence of
add/remove operations with positive add amounts keeps every persisted
quantity positive; and the same removal-to-zero rule governs a deck's
card list. -/
theorem removal_to_zero :
    (∀ (col : List CollectionEntry) (cardId : Str) (r : Int) (i : Nat)
        (c : CollectionEntry),
      col.findIdx? (matchesId cardId) = some i → col[i]? = some c → 1 ≤ r →
      (c.quantity ≤ r → removeCardFromCollection col cardId r = col.eraseIdx i)
      ∧ (r < c.quantity → removeCardFromCollection col cardId r
          = col.set i { c with quantity := c.quantity - r }))
    ∧ (∀ (ops : List AddRemoveOp) (col : List CollectionEntry),
        addsPositive ops = true → allPositive col = true →
        allPositive (applyAddRemoveOps col ops) = true)
    ∧ (∀ (cards : List DeckCardRef) (cardId : Str) (r : Int) (i : Nat)
        (c : DeckCardRef),
      cards.findIdx? (deckMatchesId cardId) = some i → cards[i]? = some c → 1 ≤ r →
      (c.quantity ≤ r → removeCardFromDeckCards cards cardId r = cards.eraseIdx i)
      ∧ (r < c.quantity → removeCardFromDeckCards cards cardId r
          = cards.set i { c with quantity := c.quantity - r })) := by
  refine ⟨?_, applyAddRemoveOps_allPositive, ?_⟩
  · intro col cardId r i c hidx hget _hr
    have heq := removeCard_eq col cardId r i c hidx hget
    constructor
    · intro hle
      rw [heq, if_pos (by omega)]
    · intro hlt
      rw [heq, if_neg (by omega)]
  · intro cards cardId r i c hidx hget _hr
    have heq := removeDeckCards_eq cards cardId r i c hidx hget
    constructor
    · intro hle
      rw [heq, if_pos (by omega)]
    · intro hlt
      rw [heq, if_neg (by omega)]

/-- Witness for C4: removing 2 of 2 deletes the sample row; removing 1
of 4 from the sample deck row leaves 3. -/
theorem removal_to_zero_witness :
    ([entryA].findIdx? (matchesId cardA.id) = some 0
      ∧ [entryA][0]? = some entryA ∧ (1 : Int) ≤ 2 ∧ entryA.quantity ≤ 2
      ∧ removeCardFromCollection [entryA] cardA.id 2 = [entryA].eraseIdx 0)
    ∧ ([deckRowA].findIdx? (deckMatchesId cardA.id) = some 0
      ∧ [deckRowA][0]? = some deckRowA ∧ (1 : Int) ≤ 1 ∧ (1 : Int) < deckRowA.quantity
      ∧ removeCardFromDeckCards [deckRowA] cardA.id 1
          = [deckRowA].set 0 { deckRowA with quantity := deckRowA.quantity - 1 }) :=
  ⟨⟨by decide, rfl, by decide, by decide,
    ((removal_to_zero.1 [entryA] cardA.id 2 0 entryA (by decide) rfl (by decide)).1
      (by decide))⟩,
   ⟨by decide, rfl, by decide, by decide,
    ((removal_to_zero.2.2 [deckRowA] cardA.id 1 0 deckRowA (by decide) rfl (by decide)).2
      (by decide))⟩⟩

theorem addDeckCards_allPositive (cards : List DeckCardRef) (card : CatalogRecord)
    (q : Int) (hq : 1 ≤ q) (h : deckAllPositive cards = true) :
    deckAllPositive (addCardToDeckCards cards card q) = true := by
  induction cards with
  | nil =>
    rw [addDeckCards_nil]
    simp [deckAllPositive]
    omega
  | cons d rest ih =>
    rw [deckAllPositive, List.all_cons, Bool.and_eq_true] at h
    cases hm : deckMatches card.id card.name d with
    | true =>
      rw [addDeckCards_cons_match d rest card q hm]
      simp only [deckAllPositive, List.all_cons, Bool.and_eq_true]
      refine ⟨by simp_all; omega, h.2⟩
    | false =>
      rw [addDeckCards_cons_nomatch d rest card q hm]
      simp only [deckAllPositive, List.all_cons, Bool.and_eq_true]
      exact ⟨h.1, ih h.2⟩

theorem removeDeckCards_allPositive (cards : List DeckCardRef) (cardId : Str)
    (q : Int) (h : deckAllPositive cards = true) :
    deckAllPositive (removeCardFromDeckCards cards cardId q) = true := by
  induction cards with
  | nil => rw [removeDeckCards_nil]; exact h
  | cons d rest ih =>
    rw [deckAllPositive, List.all_cons, Bool.and_eq_true] at h
    cases hm : deckMatchesId cardId d with
    | true =>
      rw [removeDeckCards_cons_match d rest cardId q hm]
      split
      · exact h.2
      · simp only [deckAllPositive, List.all_cons, Bool.and_eq_true]
        refine ⟨by simp; omega, h.2⟩
    | false =>
      rw [removeDeckCards_cons_nomatch d rest cardId q hm]
      simp only [deckAllPositive, List.all_cons, Bool.and_eq_true]
      exact ⟨h.1, ih h.2⟩

theorem updateDeckCards_allPositive (cards : List DeckCardRef) (cardId : Str)
    (q : Int) (h : deckAllPositive cards = true) :
    deckAllPositive (updateCardInDeckCards cards cardId q) = true := by
  induction cards with
  | nil => rw [updateDeckCards_nil]; exact h
  | cons d rest ih =>
    rw [deckAllPositive, List.all_cons, Bool.and_eq_true] at h
    cases hm : deckMatchesId cardId d with
    | true =>
      rw [updateDeckCards_cons_match d rest cardId q hm]
      split
      · exact h.2
      · simp only [deckAllPositive, List.all_cons, Bool.and_eq_true]
        rename_i hq
        refine ⟨by simp; omega, h.2⟩
    | false =>
      rw [updateDeckCards_cons_nomatch d rest cardId q hm]
      simp only [deckAllPositive, List.all_cons, Bool.and_eq_true]
      exact ⟨h.1, ih h.2⟩

theorem applyDeckOps_allPositive (ops : List DeckOp) (cards : List DeckCardRef)
    (hops : deckAddsPositive ops = true) (h : deckAllPositive cards = true) :
    deckAllPositive (applyDeckOps cards ops) = true := by
  induction ops generalizing cards with
  | nil => exact h
  | cons op rest ih =>
    cases op with
    | add card q =>
      rw [deckAddsPositive, Bool.and_eq_true] at hops
      have hq : (1 : Int) ≤ q := by
        have := hops.1
        simpa using this
      exact ih (addCardToDeckCards cards card q) hops.2
        (addDeckCards_allPositive cards card q hq h)
    | remove cardId q =>
      rw [deckAddsPositive] at hops
      exact ih (removeCardFromDeckCards cards cardId q) hops
        (removeDeckCards_allPositive cards cardId q h)
    | update cardId q =>
      rw [deckAddsPositive] at hops
      exact ih (updateCardInDeckCards cards cardId q) hops
        (updateDeckCards_allPositive cards cardId q h)

/-- C9: every deck-card mutation with positive incoming add amounts
keeps every quantity in the deck's card list at least 1; in particular
updating a deck card's quantity to a value ≤ 0 deletes the row
entirely (and a positive update stores exactly that value). -/
theorem deck_quantity_invariant :
    (∀ (cards : List DeckCardRef) (cardId : Str) (q : Int) (i : Nat)
        (c : DeckCardRef),
      cards.findIdx? (deckMatchesId cardId) = some i → cards[i]? = some c →
      (q ≤ 0 → updateCardInDeckCards cards cardId q = cards.eraseIdx i)
      ∧ (0 < q → updateCardInDeckCards cards cardId q
          = cards.set i { c with quantity := q }))
    ∧ (∀ (ops : List DeckOp) (cards : List DeckCardRef),
        deckAddsPositive ops = true → deckAllPositive cards = true →
        deckAllPositive (applyDeckOps cards ops) = true) := by
  refine ⟨?_, applyDeckOps_allPositive⟩
  intro cards cardId q i c hidx hget
  have heq := updateDeckCards_eq cards cardId q i c hidx hget
  constructor
  · intro hle
    rw [heq, if_pos hle]
  · intro hlt
    rw [heq, if_neg (by omega)]

/-- Witness for C9: updating the sample deck row to 0 deletes it. -/
theorem deck_quantity_invariant_witness :
    [deckRowA].findIdx? (deckMatchesId cardA.id) = some 0
    ∧ [deckRowA][0]? = some deckRowA ∧ (0 : Int) ≤ 0
    ∧ updateCardInDeckCards [deckRowA] cardA.id 0 = [deckRowA].eraseIdx 0 :=
  ⟨by decide, rfl, by decide,
   (deck_quantity_invariant.1 [deckRowA] cardA.id 0 0 deckRowA (by decide) rfl).1
     (by decide)⟩

end DeckOps

section UniqueInvariant

theorem all_set (l : List α) (p : α → Bool) (i : Nat) (a : α)
    (h : l.all p = true) (ha : p a = true) : (l.set i a).all p = true := by
  induction l generalizing i with
  | nil => simp
  | cons d rest ih =>
    rw [List.all_cons, Bool.and_eq_true] at h
    cases i with
    | zero => rw [List.set_cons_zero, List.all_cons, Bool.and_eq_true]; exact ⟨ha, h.2⟩
    | succ j =>
      rw [List.set_cons_succ, List.all_cons, Bool.and_eq_true]
      exact ⟨h.1, ih j h.2⟩

theorem all_eraseIdx (l : List α) (p : α → Bool) (i : Nat)
    (h : l.all p = true) : (l.eraseIdx i).all p = true := by
  induction l generalizing i with
  | nil => simp
  | cons d rest ih =>
    rw [List.all_cons, Bool.and_eq_true] at h
    cases i with
    | zero => rw [List.eraseIdx_cons_zero]; exact h.2
    | succ j =>
      rw [List.eraseIdx_cons_succ, List.all_cons, Bool.and_eq_true]
      exact ⟨h.1, ih j h.2⟩

theorem all_modifyAt (l : List α) (p : α → Bool) (i : Nat) (f : α → α)
    (hf : ∀ x, p (f x) = p x) (h : l.all p = true) :
    (modifyAt l i f).all p = true := by
  unfold modifyAt
  cases hg : l[i]? with
  | none => exact h
  | some a =>
    have ha : p a = true := by
      rw [List.all_eq_true] at h
      exact h a (List.getElem?_mem hg)
    exact all_set l p i (f a) h (by rw [hf a]; exact ha)

theorem uniqueById_eraseIdx (l : List CollectionEntry) (i : Nat)
    (h : uniqueById l = true) : uniqueById (l.eraseIdx i) = true := by
  induction l generalizing i with
  | nil => simp [uniqueById]
  | cons d rest ih =>
    rw [uniqueById, Bool.and_eq_true] at h
    cases i with
    | zero => rw [List.eraseIdx_cons_zero]; exact h.2
    | succ j =>
      rw [List.eraseIdx_cons_succ, uniqueById, Bool.and_eq_true]
      exact ⟨all_eraseIdx rest _ j h.1, ih j h.2⟩

theorem uniqueById_modifyAt (l : List CollectionEntry) (i : Nat)
    (f : CollectionEntry → CollectionEntry)
    (hfi : ∀ x, (f x).id = x.id) (hfs : ∀ x, (f x).scryfallId = x.scryfallId)
    (h : uniqueById l = true) : uniqueById (modifyAt l i f) = true := by
  induction l generalizing i with
  | nil => simp [modifyAt, uniqueById]
  | cons d rest ih =>
    rw [uniqueById, Bool.and_eq_true] at h
    cases i with
    | zero =>
      rw [modifyAt_cons_zero, uniqueById, Bool.and_eq_true]
      refine ⟨?_, h.2⟩
      have hp : (fun c2 => !keyClash (f d) c2) = (fun c2 => !keyClash d c2) :=
        funext fun c2 => by simp [keyClash, hfi, hfs]
      rw [hp]
      exact h.1
    | succ j =>
      rw [modifyAt_cons_succ, uniqueById, Bool.and_eq_true]
      refine ⟨?_, ih j h.2⟩
      exact all_modifyAt rest _ j f
        (fun x => by simp [keyClash, hfi, hfs]) h.1

theorem uniqueById_append_new (col : List CollectionEntry) (card : CatalogRecord)
    (q now : Int) (hnone : ∀ x ∈ col, matchesId card.id x = false)
    (h : uniqueById col = true) :
    uniqueById (col ++ [newCollectionEntry card q now]) = true := by
  induction col with
  | nil => simp [uniqueById]
  | cons d rest ih =>
    rw [uniqueById, Bool.and_eq_true] at h
    rw [List.cons_append, uniqueById, Bool.and_eq_true]
    constructor
    · rw [List.all_append, Bool.and_eq_true]
      refine ⟨h.1, ?_⟩
      have hd : matchesId card.id d = false := hnone d (List.mem_cons_self d rest)
      simp only [List.all_cons, List.all_nil, Bool.and_true]
      have hkc : keyClash d (newCollectionEntry card q now) = matchesId card.id d := by
        simp [keyClash, newCollectionEntry, matchesId]
      simp [hkc, hd]
    · exact ih (fun x hx => hnone x (List.mem_cons_of_mem d hx)) h.2

theorem addCard_unique (col : List CollectionEntry) (card : CatalogRecord)
    (q now : Int) (h : uniqueById col = true) :
    uniqueById (addCardToCollection col card q now) = true := by
  unfold addCardToCollection
  cases hidx : col.findIdx? (matchesId card.id) with
  | some i => exact uniqueById_modifyAt col i _ (fun x => rfl) (fun x => rfl) h
  | none =>
    have hnone := List.findIdx?_eq_none_iff.mp hidx
    exact uniqueById_append_new col card q now hnone h

theorem addCards_unique (cards : List (CatalogRecord × Int))
    (col : List CollectionEntry) (now : Int) (h : uniqueById col = true) :
    uniqueById (addCardsToCollection col cards now) = true := by
  induction cards generalizing col with
  | nil => exact h
  | cons cq rest ih =>
    rcases cq with ⟨card, q⟩
    exact ih (addCardToCollection col card q now) (addCard_unique col card q now h)

theorem addDecklistItem_unique (col : List CollectionEntry) (item : ResolvedEntry)
    (now : Int) (h : uniqueById col = true) :
    uniqueById (addDecklistItem col item now) = true := by
  unfold addDecklistItem
  split
  · exact h
  · cases item.cardData with
    | none => exact h
    | some card =>
      simp only
      cases hidx : col.findIdx? (matchesIdOrName card) with
      | some i => exact uniqueById_modifyAt col i _ (fun x => rfl) (fun x => rfl) h
      | none =>
        have hnone := List.findIdx?_eq_none_iff.mp hidx
        refine uniqueById_append_new col card _ now (fun x hx => ?_) h
        have h1 := hnone x hx
        unfold matchesIdOrName at h1
        unfold matchesId
        rcases Bool.or_eq_false_iff.mp h1 with ⟨h2, h3⟩
        exact h2

theorem addDecklist_unique (parsed : List ResolvedEntry)
    (col : List CollectionEntry) (now : Int) (h : uniqueById col = true) :
    uniqueById (addDecklistToCollection col parsed now) = true := by
  induction parsed generalizing col with
  | nil => exact h
  | cons item rest ih =>
    exact ih (addDecklistItem col item now) (addDecklistItem_unique col item now h)

theorem findIdx?_lt_length (p : α → Bool) (l : List α) (i : Nat)
    (h : l.findIdx? p = some i) : i < l.length := by
  induction l generalizing i with
  | nil => simp [List.findIdx?] at h
  | cons d rest ih =>
    rw [findIdx?_cons_zero] at h
    split at h
    · injection h with h'
      subst h'
      simp
    · rcases Option.map_eq_some'.mp h with ⟨j, hj, hij⟩
      subst hij
      have := ih j hj
      simp only [List.length_cons]
      omega

theorem removeCard_unique (col : List CollectionEntry) (cardId : Str) (q : Int)
    (h : uniqueById col = true) :
    uniqueById (removeCardFromCollection col cardId q) = true := by
  cases hidx : col.findIdx? (matchesId cardId) with
  | none =>
    unfold removeCardFromCollection
    rw [hidx]
    exact h
  | some i =>
    have hlt : i < col.length := findIdx?_lt_length _ col i hidx
    have hg : col[i]? = some col[i] := List.getElem?_eq_getElem hlt
    have heq := removeCard_eq col cardId q i col[i] hidx hg
    rw [heq]
    split
    · exact uniqueById_eraseIdx col i h
    · have hset : col.set i { col[i] with quantity := col[i].quantity - q }
          = modifyAt col i (fun x => { x with quantity := x.quantity - q }) := by
        unfold modifyAt
        rw [hg]
      rw [hset]
      exact uniqueById_modifyAt col i _ (fun x => rfl) (fun x => rfl) h

theorem updateCard_unique (col : List CollectionEntry) (cardId : Str)
    (u : EntryUpdates) (h : uniqueById col = true) :
    uniqueById (updateCardInCollection col cardId u) = true := by
  unfold updateCardInCollection
  cases hidx : col.findIdx? (matchesId cardId) with
  | none => exact h
  | some i =>
    exact uniqueById_modifyAt col i _ (fun x => rfl) (fun x => rfl) h

theorem applyCollectionOps_unique (ops : List CollectionOp)
    (col : List CollectionEntry) (h : uniqueById col = true) :
    uniqueById (applyCollectionOps col ops) = true := by
  induction ops generalizing col with
  | nil => exact h
  | cons op rest ih =>
    cases op with
    | add card q now => exact ih _ (addCard_unique col card q now h)
    | addMany cards now => exact ih _ (addCards_unique cards col now h)
    | addDecklist parsed now => exact ih _ (addDecklist_unique parsed col now h)
    | remove cardId q => exact ih _ (removeCard_unique col cardId q h)
    | update cardId u => exact ih _ (updateCard_unique col cardId u h)

/-- C3: the at-most-one-row-per-catalog-id invariant (matching through
both the primary key and the legacy alias) holds in every collection
reachable by add/remove/update operations and is preserved by each of
them; merging is additive: two resolved entries with the same catalog
id and quantities 2 and 3 fed into an empty collection yield exactly
one row of quantity 5, and in general adding an already-present id
bumps that row's quantity by the incoming amount instead of appending
a row. -/
theorem collection_unique_and_additive :
    (∀ (ops : List CollectionOp) (col : List CollectionEntry),
      uniqueById col = true → uniqueById (applyCollectionOps col ops) = true)
    ∧ (∀ ops : List CollectionOp, uniqueById (applyCollectionOps [] ops) = true)
    ∧ (∀ (card : CatalogRecord) (now : Int),
        addCardsToCollection [] [(card, 2), (card, 3)] now
          = [newCollectionEntry card 5 now])
    ∧ (∀ (col : List CollectionEntry) (card : CatalogRecord) (q now : Int)
        (i : Nat) (c : CollectionEntry),
        col.findIdx? (matchesId card.id) = some i → col[i]? = some c →
        addCardToCollection col card q now
          = col.set i { c with quantity := c.quantity + q }) := by
  refine ⟨applyCollectionOps_unique,
    fun ops => applyCollectionOps_unique ops [] rfl, ?_, addCard_eq_set⟩
  intro card now
  show addCardsToCollection (addCardToCollection [] card 2 now) [(card, 3)] now
    = [newCollectionEntry card 5 now]
  rw [addCard_nil]
  show addCardToCollection [newCollectionEntry card 2 now] card 3 now
    = [newCollectionEntry card 5 now]
  rw [addCard_cons_match _ _ _ _ _ (by simp [matchesId, newCollectionEntry])]
  rfl

/-- Witness for C3: one add to the empty collection, and a quantity
bump on the sample singleton collection. -/
theorem collection_unique_and_additive_witness :
    (uniqueById [] = true
      ∧ uniqueById (applyCollectionOps [] [CollectionOp.add cardA 1 0]) = true)
    ∧ ([entryA].findIdx? (matchesId cardA.id) = some 0
      ∧ [entryA][0]? = some entryA
      ∧ addCardToCollection [entryA] cardA 7 3
          = [entryA].set 0 { entryA with quantity := entryA.quantity + 7 }) :=
  ⟨⟨rfl, collection_unique_and_additive.1 [CollectionOp.add cardA 1 0] [] rfl⟩,
   ⟨by decide, rfl,
    collection_unique_and_additive.2.2.2 [entryA] cardA 7 3 0 entryA (by decide) rfl⟩⟩

end UniqueInvariant

section MatchingScope

theorem modifyAt_length (l : List α) (i : Nat) (f : α → α) :
    (modifyAt l i f).length = l.length := by
  unfold modifyAt
  cases h : l[i]? <;> simp

theorem any_of_findIdx?_some (p : α → Bool) (l : List α) (i : Nat)
    (h : l.findIdx? p = some i) : l.any p = true := by
  by_contra habs
  have hall : ∀ x ∈ l, p x = false := by
    intro x hx
    cases hp : p x
    · rfl
    · exact absurd (List.any_eq_true.mpr ⟨x, hx, hp⟩) habs
  rw [List.findIdx?_eq_none_iff.mpr hall] at h
  cases h

theorem any_eq_false_of_findIdx?_none (p : α → Bool) (l : List α)
    (h : l.findIdx? p = none) : l.any p = false := by
  have hall := List.findIdx?_eq_none_iff.mp h
  cases ha : l.any p
  · rfl
  · rcases List.any_eq_true.mp ha with ⟨x, hx, hp⟩
    rw [hall x hx] at hp
    cases hp

theorem addCard_length_iff (col : List CollectionEntry) (card : CatalogRecord)
    (q now : Int) :
    (addCardToCollection col card q now).length = col.length
      ↔ col.any (matchesId card.id) = true := by
  unfold addCardToCollection
  cases hidx : col.findIdx? (matchesId card.id) with
  | some i =>
    simp only [modifyAt_length]
    exact ⟨fun _ => any_of_findIdx?_some _ col i hidx, fun _ => trivial⟩
  | none =>
    have hany := any_eq_false_of_findIdx?_none _ col hidx
    simp only [List.length_append, List.length_cons, List.length_nil]
    constructor
    · intro hlen
      omega
    · intro htrue
      rw [hany] at htrue
      cases htrue

theorem addDeckCards_length_iff (cards : List DeckCardRef) (card : CatalogRecord)
    (q : Int) :
    (addCardToDeckCards cards card q).length = cards.length
      ↔ cards.any (deckMatches card.id card.name) = true := by
  unfold addCardToDeckCards
  cases hidx : cards.findIdx? (deckMatches card.id card.name) with
  | some i =>
    simp only [modifyAt_length]
    exact ⟨fun _ => any_of_findIdx?_some _ cards i hidx, fun _ => trivial⟩
  | none =>
    have hany := any_eq_false_of_findIdx?_none _ cards hidx
    simp only [List.length_append, List.length_cons, List.length_nil]
    constructor
    · intro hlen
      omega
    · intro htrue
      rw [hany] at htrue
      cases htrue

theorem addDecklistSingle_length_iff (col : List CollectionEntry) (nm : Str)
    (qn : Nat) (card : CatalogRecord) (now : Int) :
    (addDecklistToCollection col [⟨nm, qn, some card, true⟩] now).length = col.length
      ↔ col.any (matchesIdOrName card) = true := by
  show (addDecklistToCollection (addDecklistItem col ⟨nm, qn, some card, true⟩ now) [] now).length = col.length ↔ _
  unfold addDecklistToCollection addDecklistItem
  simp only [Bool.not_true, Bool.false_eq_true, if_false]
  cases hidx : col.findIdx? (matchesIdOrName card) with
  | some i =>
    simp only [modifyAt_length]
    exact ⟨fun _ => any_of_findIdx?_some _ col i hidx, fun _ => trivial⟩
  | none =>
    have hany := any_eq_false_of_findIdx?_none _ col hidx
    simp only [List.length_append, List.length_cons, List.length_nil]
    constructor
    · intro hlen
      omega
    · intro htrue
      rw [hany] at htrue
      cases htrue

/-- C5 counterexample: a resolved entry whose record has a fresh
catalog id (b) but the same display name as an existing row merges into
that row when added through the decklist path — the collection stays at
one row with summed quantity even though neither the id nor the legacy
alias of the existing row matches — so exact-name matching is used when
merging resolved entries into the main collection. -/
theorem decklist_merge_uses_name_counterexample :
    addDecklistToCollection [entryA] [⟨['r'], 3, some cardB, true⟩] 7
      = [{ entryA with quantity := 5 }]
    ∧ matchesId cardB.id entryA = false := by
  decide

/-- C5 (amended): id-or-legacy-alias matching governs the single-card
collection add (its merge-vs-append decision depends exactly on an
id/alias match), while exact display-name equality is additionally
used both by deck card matching and by the decklist-import merge into
the main collection (their decisions depend on an id/alias/name
match). -/
theorem identity_matching_scope :
    (∀ (col : List CollectionEntry) (card : CatalogRecord) (q now : Int),
      (addCardToCollection col card q now).length = col.length
        ↔ col.any (matchesId card.id) = true)
    ∧ (∀ (col : List CollectionEntry) (nm : Str) (qn : Nat)
        (card : CatalogRecord) (now : Int),
      (addDecklistToCollection col [⟨nm, qn, some card, true⟩] now).length = col.length
        ↔ col.any (matchesIdOrName card) = true)
    ∧ (∀ (cards : List DeckCardRef) (card : CatalogRecord) (q : Int),
      (addCardToDeckCards cards card q).length = cards.length
        ↔ cards.any (deckMatches card.id card.name) = true) :=
  ⟨addCard_length_iff, addDecklistSingle_length_iff, addDeckCards_length_iff⟩

end MatchingScope

section ResolutionTiers

/-- C2 counterexample: with a non-English language preference, a
provider whose fuzzy lookup fails and whose language-scoped search
returns no result makes resolution fail, even though the any-language
search would succeed — the any-language tier is never reached. -/
theorem language_tier_counterexample :
    getCardByFuzzyName langGapProvider ['n'] (some ['f', 'r'])
      = .error "Card not found in specified language"
    ∧ searchCardInAnyLanguage langGapProvider ['n'] = .ok cardA :=
  ⟨rfl, rfl⟩

/-- C2 (amended): single-entry resolution first tries the unscoped
fuzzy lookup; if it fails and a non-English language preference is set,
the result is exactly that of the language-scoped search (taking the
first result), whose failure is final — the any-language tier is only
reached when no non-English preference is set, in which case a failing
fuzzy tier falls back to the any-language search taking the first
result. -/
theorem fuzzy_resolution_tiers :
    (∀ (p : Provider) (name : Str) (card : CatalogRecord) (lang : Option Str),
      p.fuzzyNamed name = .ok card → getCardByFuzzyName p name lang = .ok card)
    ∧ (∀ (p : Provider) (name : Str) (l : Str) (e : String),
      nonEnglish (some l) = true → p.fuzzyNamed name = .error e →
      getCardByFuzzyName p name (some l) = searchCardInLanguage p name l)
    ∧ (∀ (p : Provider) (name : Str) (lang : Option Str) (e : String)
        (card : CatalogRecord),
      nonEnglish lang = false → p.fuzzyNamed name = .error e →
      searchCardInAnyLanguage p name = .ok card →
      getCardByFuzzyName p name lang = .ok card) := by
  refine ⟨?_, ?_, ?_⟩
  · intro p name card lang hf
    unfold getCardByFuzzyName
    rw [hf]
  · intro p name l e hne hf
    unfold getCardByFuzzyName
    rw [hf, if_pos hne]
    rfl
  · intro p name lang e card hne hf hany
    unfold getCardByFuzzyName
    rw [hf, if_neg (by simp [hne])]
    exact hany

/-- Witness for C2 at the sample provider. -/
theorem fuzzy_resolution_tiers_witness :
    nonEnglish (some ['f', 'r']) = true
    ∧ langGapProvider.fuzzyNamed ['n'] = .error "fuzzy failed"
    ∧ getCardByFuzzyName langGapProvider ['n'] (some ['f', 'r'])
        = searchCardInLanguage langGapProvider ['n'] ['f', 'r'] :=
  ⟨by decide, rfl,
   fuzzy_resolution_tiers.2.1 langGapProvider ['n'] ['f', 'r'] "fuzzy failed"
     (by decide) rfl⟩

end ResolutionTiers

section BulkResolution

theorem fallbackPass_names (p : Provider) (lang : Option Str)
    (rs : List ResolvedEntry) :
    (fallbackPass p lang rs).map (fun r => (r.name, r.quantity))
      = rs.map (fun r => (r.name, r.quantity)) := by
  induction rs with
  | nil => rfl
  | cons r rest ih =>
    simp only [fallbackPass, List.map_cons, ih]
    cases hf : r.found
    · simp only [hf, Bool.false_eq_true, if_false]
      rcases hatt : (if effectiveLang lang = "any".toList
          then searchCardInAnyLanguage p r.name
          else searchCardInLanguage p r.name (effectiveLang lang)) with e | c
      · simp [hatt]
      · simp [hatt]
    · simp [hf]

theorem fallbackPass_consistent (p : Provider) (lang : Option Str)
    (rs : List ResolvedEntry)
    (h : rs.all (fun r => r.found = r.cardData.isSome) = true) :
    (fallbackPass p lang rs).all (fun r => r.found = r.cardData.isSome) = true := by
  induction rs with
  | nil => rfl
  | cons r rest ih =>
    rw [List.all_cons, Bool.and_eq_true] at h
    simp only [fallbackPass, List.all_cons, Bool.and_eq_true]
    refine ⟨?_, ih h.2⟩
    cases hf : r.found
    · rcases hatt : (if effectiveLang lang = "any".toList
          then searchCardInAnyLanguage p r.name
          else searchCardInLanguage p r.name (effectiveLang lang)) with e | c
      · exact h.1
      · rfl
    · exact h.1

theorem matchBatch_names (cd : List CatalogRecord) (cards : List DeckEntry) :
    (matchBatch cd cards).map (fun r => (r.name, r.quantity))
      = cards.map (fun c => (c.name, c.quantity)) := by
  unfold matchBatch
  rw [List.map_map]
  have : ((fun r : ResolvedEntry => (r.name, r.quantity)) ∘ fun c : DeckEntry =>
      match cd.find? (fun d => lowerStr d.name = lowerStr c.name) with
      | some d => (⟨c.name, c.quantity, some d, true⟩ : ResolvedEntry)
      | none => ⟨c.name, c.quantity, none, false⟩)
      = fun c : DeckEntry => (c.name, c.quantity) := by
    funext c
    cases h : cd.find? (fun d => lowerStr d.name = lowerStr c.name) <;> simp [h]
  rw [this]

theorem matchBatch_consistent (cd : List CatalogRecord) (cards : List DeckEntry) :
    (matchBatch cd cards).all (fun r => r.found = r.cardData.isSome) = true := by
  unfold matchBatch
  rw [List.all_eq_true]
  intro r hr
  rcases List.mem_map.mp hr with ⟨c, _, hc⟩
  cases h : cd.find? (fun d => lowerStr d.name = lowerStr c.name) <;>
    rw [h] at hc <;> rw [← hc] <;> rfl

/-- C1: for every decklist text and every provider behaviour, bulk
resolution returns (as a total function, hence without raising) exactly
one resolved entry per tokenized entry, in the same order and carrying
the same name and quantity, and each entry has found = true with a
record exactly when its record field is non-null. -/
theorem parseDeckList_per_entry :
    ∀ (p : Provider) (text : Str) (lang : Option Str),
      (parseDeckList p text lang).map (fun r => (r.name, r.quantity))
        = (tokenize text).map (fun c => (c.name, c.quantity))
      ∧ (parseDeckList p text lang).all
          (fun r => r.found = r.cardData.isSome) = true := by
  intro p text lang
  unfold parseDeckList
  cases hb : getCardCollection p.collectionPost ((tokenize text).map (·.name)) with
  | error e =>
    constructor
    · rw [List.map_map]
      rfl
    · rw [List.all_eq_true]
      intro r hr
      rcases List.mem_map.mp hr with ⟨c, _, hc⟩
      rw [← hc]
      rfl
  | ok cd =>
    exact ⟨by rw [fallbackPass_names, matchBatch_names],
      fallbackPass_consistent p lang _ (matchBatch_consistent cd _)⟩

end BulkResolution

section TokenizerEquivalence

theorem isDigit_not_x (c : Char) (h : c.isDigit = true) : isXChar c = false := by
  by_cases h1 : c = 'x'
  · subst h1; exact absurd h (by decide)
  · by_cases h2 : c = 'X'
    · subst h2; exact absurd h (by decide)
    · simp [isXChar, h1, h2]

theorem isDigit_not_ws (c : Char) (h : c.isDigit = true) : jsWhite c = false := by
  by_cases h1 : c = ' '
  · subst h1; exact absurd h (by decide)
  · by_cases h2 : c = '\t'
    · subst h2; exact absurd h (by decide)
    · by_cases h3 : c = '\n'
      · subst h3; exact absurd h (by decide)
      · by_cases h4 : c = '\r'
        · subst h4; exact absurd h (by decide)
        · by_cases h5 : c = '\x0b'
          · subst h5; exact absurd h (by decide)
          · by_cases h6 : c = '\x0c'
            · subst h6; exact absurd h (by decide)
            · simp [jsWhite, h1, h2, h3, h4, h5, h6]

theorem isDigit_dot (c : Char) (h : c.isDigit = true) : isDotChar c = true := by
  by_cases h1 : c = '\n'
  · subst h1; exact absurd h (by decide)
  · by_cases h2 : c = '\r'
    · subst h2; exact absurd h (by decide)
    · simp [isDotChar, h1, h2]

theorem isDigit_not_slash (c : Char) (h : c.isDigit = true) : c ≠ '/' := by
  intro h1; subst h1; exact absurd h (by decide)

theorem isDigit_not_hash (c : Char) (h : c.isDigit = true) : c ≠ '#' := by
  intro h1; subst h1; exact absurd h (by decide)

theorem xchar_not_ws (c : Char) (h : isXChar c = true) : jsWhite c = false := by
  have h' : c = 'x' ∨ c = 'X' := by simpa [isXChar] using h
  rcases h' with h1 | h1 <;> (subst h1; decide)

theorem xchar_dot (c : Char) (h : isXChar c = true) : isDotChar c = true := by
  have h' : c = 'x' ∨ c = 'X' := by simpa [isXChar] using h
  rcases h' with h1 | h1 <;> (subst h1; decide)

theorem ws_trim_single (c : Char) (h : jsWhite c = true) : trim [c] = [] := by
  unfold trim trimL trimR
  simp [List.dropWhile_cons, h]

theorem not_ws_trim_single (c : Char) (h : jsWhite c = false) : trim [c] = [c] := by
  unfold trim trimL trimR
  simp [List.dropWhile_cons, h]

theorem dropWhile_eq_drop_len (p : α → Bool) (l : List α) :
    l.dropWhile p = l.drop (l.takeWhile p).length := by
  induction l with
  | nil => rfl
  | cons c rest ih =>
    cases hp : p c
    · simp [List.dropWhile_cons, List.takeWhile_cons, hp]
    · simp [List.dropWhile_cons, List.takeWhile_cons, hp, ih]

theorem take_takeWhile_len (p : α → Bool) (l : List α) :
    l.take (l.takeWhile p).length = l.takeWhile p := by
  induction l with
  | nil => rfl
  | cons c rest ih =>
    cases hp : p c
    · simp [List.takeWhile_cons, hp]
    · simp [List.takeWhile_cons, hp, ih]

theorem dropWhile_idem (p : α → Bool) (l : List α) :
    (l.dropWhile p).dropWhile p = l.dropWhile p := by
  induction l with
  | nil => rfl
  | cons c rest ih =>
    cases hp : p c
    · simp [List.dropWhile_cons, hp]
    · simp [List.dropWhile_cons, hp, ih]

theorem trim_dropWhile (s : Str) : trim (s.dropWhile jsWhite) = trim s := by
  unfold trim trimL
  rw [dropWhile_idem]

theorem trim_nil_of_all_ws (s : Str) (h : s.dropWhile jsWhite = []) : trim s = [] := by
  unfold trim trimL
  rw [h]
  rfl

theorem all_ws_of_dropWhile_nil (s : Str) (h : s.dropWhile jsWhite = []) :
    s.all jsWhite = true := by
  induction s with
  | nil => rfl
  | cons c rest ih =>
    rw [List.dropWhile_cons] at h
    cases hp : jsWhite c
    · rw [hp] at h
      simp at h
    · rw [hp] at h
      simp only [if_true] at h
      rw [List.all_cons, hp, ih h]
      rfl

theorem drop_len_sub_one (l : Str) (c : Char) (hne : l ≠ []) :
    l.drop (l.length - 1) = [lastD l c] := by
  induction l with
  | nil => exact absurd rfl hne
  | cons d rest ih =>
    cases rest with
    | nil => rfl
    | cons e rest2 =>
      have hlen : (d :: e :: rest2).length - 1 = (e :: rest2).length - 1 + 1 := by
        simp [List.length_cons]
      rw [hlen, List.drop_succ_cons, ih (by simp)]
      rfl

theorem lastD_mem (l : Str) (c : Char) (hne : l ≠ []) : lastD l c ∈ l := by
  induction l with
  | nil => exact absurd rfl hne
  | cons d rest ih =>
    cases rest with
    | nil => simp [lastD]
    | cons e rest2 =>
      have : lastD (d :: e :: rest2) c = lastD (e :: rest2) c := rfl
      rw [this]
      exact List.mem_cons_of_mem d (ih (by simp))

theorem all_drop_of_all (p : α → Bool) (l : List α) (n : Nat)
    (h : l.all p = true) : (l.drop n).all p = true := by
  rw [List.all_eq_true] at h ⊢
  intro x hx
  exact h x (List.mem_of_mem_drop hx)

theorem all_false_of_bad_mem (p : α → Bool) (l : List α) (x : α)
    (hx : x ∈ l) (hp : p x = false) : l.all p = false := by
  cases ha : l.all p
  · rfl
  · rw [List.all_eq_true] at ha
    rw [ha x hx] at hp
    cases hp

theorem wsLens_eq (m : Nat) : wsLens m = m :: (List.range m).reverse := by
  unfold wsLens
  rw [List.range_succ, List.reverse_append]
  rfl

theorem range_reverse_succ (m : Nat) :
    (List.range (m + 1)).reverse = m :: (List.range m).reverse := by
  rw [List.range_succ, List.reverse_append]
  rfl

theorem wsSearch_main (g1 : Option Str) (rest2 : Str)
    (hne : rest2.dropWhile jsWhite ≠ [])
    (hdot : (rest2.dropWhile jsWhite).all isDotChar = true) :
    wsSearch g1 rest2 = some (g1, rest2.dropWhile jsWhite) := by
  have hdm : rest2.drop (rest2.takeWhile jsWhite).length = rest2.dropWhile jsWhite :=
    (dropWhile_eq_drop_len jsWhite rest2).symm
  simp only [wsSearch, wsLens_eq, List.findSome?_cons, hdm,
    List.isEmpty_eq_false.mpr hne, Bool.false_eq_true, if_false, hdot, if_true]

theorem wsSearch_none_of_bad (g1 : Option Str) (rest2 : Str)
    (hdot : (rest2.dropWhile jsWhite).all isDotChar = false) :
    wsSearch g1 rest2 = none := by
  simp only [wsSearch]
  rw [List.findSome?_eq_none_iff]
  intro w hw
  have hwle : w ≤ (rest2.takeWhile jsWhite).length := by
    unfold wsLens at hw
    rw [List.mem_reverse, List.mem_range] at hw
    omega
  cases hemp : (rest2.drop w).isEmpty
  · cases hall : (rest2.drop w).all isDotChar
    · simp [hemp, hall]
    · exfalso
      have h1 : ((rest2.drop w).drop ((rest2.takeWhile jsWhite).length - w)).all
          isDotChar = true := all_drop_of_all _ _ _ hall
      rw [List.drop_drop] at h1
      have h2 : w + ((rest2.takeWhile jsWhite).length - w)
          = (rest2.takeWhile jsWhite).length := by omega
      rw [h2, ← dropWhile_eq_drop_len] at h1
      rw [h1] at hdot
      cases hdot
  · simp [hemp]

theorem wsSearch_nil (g1 : Option Str) : wsSearch g1 [] = none := rfl

theorem wsSearch_allws (g1 : Option Str) (rest2 : Str) (hne : rest2 ≠ [])
    (hall : rest2.dropWhile jsWhite = []) :
    wsSearch g1 rest2
      = if isDotChar (lastD rest2 ' ') then some (g1, [lastD rest2 ' ']) else none := by
  have hm : (rest2.takeWhile jsWhite).length = rest2.length := by
    have := List.takeWhile_append_dropWhile jsWhite rest2
    rw [hall, List.append_nil] at this
    rw [this]
  simp only [wsSearch]
  rw [hm, wsLens_eq, List.findSome?_cons]
  simp only [List.drop_length, List.isEmpty_nil, if_true]
  have hlen : 0 < rest2.length := List.length_pos.mpr hne
  obtain ⟨k, hk⟩ : ∃ k, rest2.length = k + 1 := ⟨rest2.length - 1, by omega⟩
  rw [hk, range_reverse_succ, List.findSome?_cons]
  have hdk : rest2.drop k = [lastD rest2 ' '] := by
    have := drop_len_sub_one rest2 ' ' hne
    rw [hk] at this
    simpa using this
  simp only [hdk]
  cases hld : isDotChar (lastD rest2 ' ')
  · simp only [List.isEmpty_cons, Bool.false_eq_true, if_false, List.all_cons,
      List.all_nil, hld, Bool.false_and]
    rw [List.findSome?_eq_none_iff]
    intro w hw
    rw [List.mem_reverse, List.mem_range] at hw
    have hne2 : (rest2.drop w).isEmpty = false := by
      rw [List.isEmpty_eq_false]
      intro hcon
      have : rest2.length - w = 0 := by
        have := congrArg List.length hcon
        simpa using this
      omega
    have hmem : lastD rest2 ' ' ∈ rest2.drop w := by
      have h1 : (rest2.drop w).drop (k - w) = rest2.drop k := by
        rw [List.drop_drop]
        congr 1
        omega
      have h2 : lastD rest2 ' ' ∈ (rest2.drop w).drop (k - w) := by
        rw [h1, hdk]
        simp
      exact List.mem_of_mem_drop h2
    have hbad := all_false_of_bad_mem isDotChar (rest2.drop w) _ hmem hld
    simp [hne2, hbad]
  · simp [hld]

theorem tryTail_nil (g1 : Option Str) : tryTail g1 [] = none := rfl

theorem tryTail_not_x (g1 : Option Str) (c : Char) (rest : Str)
    (hx : isXChar c = false) :
    tryTail g1 (c :: rest) = wsSearch g1 (c :: rest) := by
  simp only [tryTail, hx, Bool.false_eq_true, if_false]
  cases h : wsSearch g1 (c :: rest) <;>
    simp [List.findSome?_cons, List.findSome?_nil, List.drop_zero, h]

theorem tryTail_x (g1 : Option Str) (c : Char) (rest : Str)
    (hx : isXChar c = true) :
    tryTail g1 (c :: rest)
      = match wsSearch g1 rest with
        | some v => some v
        | none => wsSearch g1 (c :: rest) := by
  simp only [tryTail, hx, if_true]
  cases h : wsSearch g1 rest <;> cases h2 : wsSearch g1 (c :: rest) <;>
    simp [List.findSome?_cons, List.findSome?_nil, List.drop_succ_cons,
      List.drop_zero, h, h2]

theorem process_wsSearch (g1 : Option Str) (s : Str) (hne : s ≠ []) :
    matchResultToEntry (wsSearch g1 s)
    = (if !(trimL s).all isDotChar then none else finishEntry g1 (trim s)) := by
  have htl : trimL s = s.dropWhile jsWhite := rfl
  cases htw : s.dropWhile jsWhite with
  | nil =>
    rw [wsSearch_allws g1 s hne htw]
    have hld : jsWhite (lastD s ' ') = true := by
      have hall := all_ws_of_dropWhile_nil s htw
      rw [List.all_eq_true] at hall
      exact hall _ (lastD_mem s ' ' hne)
    have htrim : trim s = [] := trim_nil_of_all_ws s htw
    cases hdot : isDotChar (lastD s ' ')
    · simp [htl, htw, htrim, finishEntry, matchResultToEntry]
    · simp [hdot, htl, htw, htrim, ws_trim_single _ hld, finishEntry,
        matchResultToEntry]
  | cons t0 ts =>
    have htne : s.dropWhile jsWhite ≠ [] := by rw [htw]; simp
    cases hdot : (s.dropWhile jsWhite).all isDotChar
    · rw [wsSearch_none_of_bad g1 s hdot]
      rw [if_pos (by rw [htl, hdot]; rfl)]
      rfl
    · rw [wsSearch_main g1 s htne hdot]
      rw [if_neg (by rw [htl, hdot]; simp)]
      show finishEntry g1 (trim (s.dropWhile jsWhite)) = finishEntry g1 (trim s)
      rw [trim_dropWhile]

theorem process_tryTail_x (g1 : Option Str) (c : Char) (rest : Str)
    (hx : isXChar c = true) :
    matchResultToEntry (tryTail g1 (c :: rest))
    = (if rest.isEmpty then finishEntry g1 (trim [c])
       else if !(trimL rest).all isDotChar then none
       else finishEntry g1 (trim rest)) := by
  rw [tryTail_x g1 c rest hx]
  have hcws : jsWhite c = false := xchar_not_ws c hx
  have hcdot : isDotChar c = true := xchar_dot c hx
  cases rest with
  | nil =>
    rw [wsSearch_nil]
    have h1 : ([c].dropWhile jsWhite) = [c] := by
      simp [List.dropWhile_cons, hcws]
    rw [wsSearch_main g1 [c] (by rw [h1]; simp)
      (by rw [h1]; simp [List.all_cons, hcdot])]
    rw [h1]
    simp [matchResultToEntry]
  | cons r0 rs =>
    have hrne : (r0 :: rs) ≠ [] := by simp
    have htl : trimL (r0 :: rs) = (r0 :: rs).dropWhile jsWhite := rfl
    have hdw : (c :: r0 :: rs).dropWhile jsWhite = c :: r0 :: rs := by
      simp [List.dropWhile_cons, hcws]
    cases htw : (r0 :: rs).dropWhile jsWhite with
    | nil =>
      rw [wsSearch_allws g1 _ hrne htw]
      have hld : jsWhite (lastD (r0 :: rs) ' ') = true := by
        have hall := all_ws_of_dropWhile_nil _ htw
        rw [List.all_eq_true] at hall
        exact hall _ (lastD_mem _ ' ' hrne)
      have htrim0 : trim (r0 :: rs) = [] := trim_nil_of_all_ws _ htw
      cases hdot : isDotChar (lastD (r0 :: rs) ' ')
      · have hbad : (r0 :: rs).all isDotChar = false :=
          all_false_of_bad_mem _ _ _ (lastD_mem _ ' ' hrne) hdot
        have hbad2 : ((c :: r0 :: rs).dropWhile jsWhite).all isDotChar = false := by
          rw [hdw, List.all_cons, hbad]
          simp
        rw [wsSearch_none_of_bad g1 _ hbad2]
        simp [htl, htw, htrim0, finishEntry, matchResultToEntry]
      · simp [htl, htw, htrim0, ws_trim_single _ hld, finishEntry, matchResultToEntry]
    | cons t0 ts =>
      have htne : (r0 :: rs).dropWhile jsWhite ≠ [] := by rw [htw]; simp
      cases hdot : ((r0 :: rs).dropWhile jsWhite).all isDotChar
      · have hbadr : (r0 :: rs).all isDotChar = false := by
          cases hra : (r0 :: rs).all isDotChar
          · rfl
          · exfalso
            have hda := all_drop_of_all isDotChar (r0 :: rs)
              ((r0 :: rs).takeWhile jsWhite).length hra
            rw [← dropWhile_eq_drop_len] at hda
            rw [hda] at hdot
            cases hdot
        have hbad2 : ((c :: r0 :: rs).dropWhile jsWhite).all isDotChar = false := by
          rw [hdw, List.all_cons, hbadr]
          simp
        rw [wsSearch_none_of_bad g1 _ hdot, wsSearch_none_of_bad g1 _ hbad2]
        simp [htl, hdot, matchResultToEntry]
      · rw [wsSearch_main g1 _ htne hdot]
        have hgoal : finishEntry g1 (trim ((r0 :: rs).dropWhile jsWhite))
            = finishEntry g1 (trim (r0 :: rs)) := by rw [trim_dropWhile]
        simp only [List.isEmpty_cons, Bool.false_eq_true, if_false, htl, hdot,
          Bool.not_true, matchResultToEntry]
        exact hgoal

theorem all_false_of_wsSearch_none (g1 : Option Str) (s : Str) (hne : s ≠ [])
    (h : wsSearch g1 s = none) : s.all isDotChar = false := by
  cases ha : s.all isDotChar
  · rfl
  · exfalso
    cases htw : s.dropWhile jsWhite with
    | nil =>
      have hld := lastD_mem s ' ' hne
      have hdot : isDotChar (lastD s ' ') = true := by
        rw [List.all_eq_true] at ha
        exact ha _ hld
      rw [wsSearch_allws g1 s hne htw, if_pos hdot] at h
      cases h
    | cons t0 ts =>
      have htne : s.dropWhile jsWhite ≠ [] := by rw [htw]; simp
      have hta : (s.dropWhile jsWhite).all isDotChar = true := by
        rw [dropWhile_eq_drop_len]
        exact all_drop_of_all _ _ _ ha
      rw [wsSearch_main g1 s htne hta] at h
      cases h

theorem bad_of_tryTail_none (g1 : Option Str) (r : Str) (hne : r ≠ [])
    (h : tryTail g1 r = none) : r.all isDotChar = false := by
  cases r with
  | nil => exact absurd rfl hne
  | cons c2 rest2 =>
    cases hx : isXChar c2
    · rw [tryTail_not_x g1 c2 rest2 hx] at h
      exact all_false_of_wsSearch_none g1 _ (by simp) h
    · rw [tryTail_x g1 c2 rest2 hx] at h
      cases hws : wsSearch g1 rest2 with
      | some v => rw [hws] at h; cases h
      | none =>
        rw [hws] at h
        exact all_false_of_wsSearch_none g1 _ (by simp) h

theorem matchLine_no_digits (l : Str) (h : l.takeWhile Char.isDigit = []) :
    matchLine l = tryTail none l := by
  simp only [matchLine, h, List.length_nil]
  cases htt : tryTail none l <;>
    simp [List.range', List.findSome?_cons, List.findSome?_nil, htt]

theorem range'_one_reverse_succ (n : Nat) :
    (List.range' 1 (n + 1)).reverse = (n + 1) :: (List.range' 1 n).reverse := by
  rw [@List.range'_concat 1 1 n, List.reverse_append]
  simp [Nat.add_comm]

theorem wsSearch_single_not_ws (g1 : Option Str) (c : Char)
    (hws : jsWhite c = false) (hdot : isDotChar c = true) :
    wsSearch g1 [c] = some (g1, [c]) := by
  have h1 : ([c].dropWhile jsWhite) = [c] := by simp [List.dropWhile_cons, hws]
  rw [wsSearch_main g1 [c] (by rw [h1]; simp) (by rw [h1]; simp [hdot]), h1]

theorem matchLine_digits_restne (l : Str)
    (hds : l.takeWhile Char.isDigit ≠ [])
    (hr : l.dropWhile Char.isDigit ≠ []) :
    matchLine l
      = tryTail (some (l.takeWhile Char.isDigit)) (l.dropWhile Char.isDigit) := by
  obtain ⟨m, hm⟩ : ∃ m, (l.takeWhile Char.isDigit).length = m + 1 := by
    refine ⟨(l.takeWhile Char.isDigit).length - 1, ?_⟩
    have := List.length_pos.mpr hds
    omega
  have htake : l.take (m + 1) = l.takeWhile Char.isDigit := by
    rw [← hm]
    exact take_takeWhile_len _ l
  have hdrop : l.drop (m + 1) = l.dropWhile Char.isDigit := by
    rw [← hm]
    exact (dropWhile_eq_drop_len _ l).symm
  simp only [matchLine, hm]
  rw [range'_one_reverse_succ]
  simp only [List.map_cons, List.cons_append, List.findSome?_cons]
  rw [htake, hdrop]
  cases htt : tryTail (some (l.takeWhile Char.isDigit)) (l.dropWhile Char.isDigit) with
  | some v => rfl
  | none =>
    have hbadr : (l.dropWhile Char.isDigit).all isDotChar = false :=
      bad_of_tryTail_none _ _ hr htt
    rcases List.all_eq_false.mp hbadr with ⟨bad, hbadmem, hbadp⟩
    have hbadp2 : isDotChar bad = false := by
      cases hb : isDotChar bad
      · rfl
      · exact absurd hb hbadp
    rw [List.findSome?_eq_none_iff]
    intro choice hchoice
    rcases List.mem_append.mp hchoice with hc | hc
    · rcases List.mem_map.mp hc with ⟨k, hk, hck⟩
      rw [List.mem_reverse, List.mem_range'_1] at hk
      rw [← hck]
      simp only
      have hkle : k ≤ (l.takeWhile Char.isDigit).length := by omega
      have hsplit : l.drop k
          = (l.takeWhile Char.isDigit).drop k ++ l.dropWhile Char.isDigit := by
        conv_lhs => rw [← List.takeWhile_append_dropWhile Char.isDigit l]
        rw [List.drop_append_of_le_length hkle]
      have hdsne : (l.takeWhile Char.isDigit).drop k ≠ [] := by
        intro hcon
        have := congrArg List.length hcon
        simp only [List.length_drop, List.length_nil] at this
        omega
      rcases hshape : (l.takeWhile Char.isDigit).drop k with _ | ⟨c2, tail2⟩
      · exact absurd hshape hdsne
      · have hc2dig : c2.isDigit = true := by
          have hmem : c2 ∈ l.takeWhile Char.isDigit :=
            List.mem_of_mem_drop (by rw [hshape]; simp)
          have := List.all_takeWhile (p := Char.isDigit) (l := l)
          rw [List.all_eq_true] at this
          exact this c2 hmem
        rw [hsplit, hshape, List.cons_append]
        rw [tryTail_not_x _ _ _ (isDigit_not_x c2 hc2dig)]
        have hdw2 : ((c2 :: (tail2 ++ l.dropWhile Char.isDigit)).dropWhile jsWhite)
            = c2 :: (tail2 ++ l.dropWhile Char.isDigit) := by
          simp [List.dropWhile_cons, isDigit_not_ws c2 hc2dig]
        have hbadin : (((c2 :: (tail2 ++ l.dropWhile Char.isDigit)).dropWhile
            jsWhite).all isDotChar) = false := by
          rw [hdw2]
          refine all_false_of_bad_mem _ _ bad ?_ hbadp2
          exact List.mem_cons_of_mem _ (List.mem_append_right _ hbadmem)
        exact wsSearch_none_of_bad _ _ hbadin
    · have hcn : choice = none := by simpa using hc
      rw [hcn]
      simp only
      rcases hlshape : l with _ | ⟨d0, ltail⟩
      · rw [hlshape] at hds
        simp at hds
      · have hd0dig : d0.isDigit = true := by
          by_contra hcon
          rw [hlshape, List.takeWhile_cons] at hds
          simp only [Bool.not_eq_true] at hcon
          rw [hcon] at hds
          simp at hds
        rw [tryTail_not_x _ _ _ (isDigit_not_x d0 hd0dig)]
        have hdw2 : ((d0 :: ltail).dropWhile jsWhite) = d0 :: ltail := by
          simp [List.dropWhile_cons, isDigit_not_ws d0 hd0dig]
        have hbadin : (((d0 :: ltail).dropWhile jsWhite).all isDotChar) = false := by
          rw [hdw2]
          refine all_false_of_bad_mem _ _ bad ?_ hbadp2
          have : bad ∈ l := by
            rw [dropWhile_eq_drop_len] at hbadmem
            exact List.mem_of_mem_drop hbadmem
          rw [hlshape] at this
          exact this
        exact wsSearch_none_of_bad _ _ hbadin

theorem matchLine_all_digits (l : Str) (hne : l ≠ [])
    (hr : l.dropWhile Char.isDigit = []) :
    matchLine l = if 2 ≤ l.length then some (some l.dropLast, [lastD l '0'])
                  else some (none, l) := by
  have hall : l.takeWhile Char.isDigit = l := by
    have h := List.takeWhile_append_dropWhile Char.isDigit l
    rw [hr, List.append_nil] at h
    exact h
  have hdigits : l.all Char.isDigit = true := by
    rw [← hall]
    exact List.all_takeWhile
  obtain ⟨m, hm⟩ : ∃ m, l.length = m + 1 := by
    refine ⟨l.length - 1, ?_⟩
    have := List.length_pos.mpr hne
    omega
  have h1 : l.drop (m + 1) = [] := by rw [← hm]; exact List.drop_length l
  have h2 : l.take (m + 1) = l := by rw [← hm]; exact List.take_length l
  simp only [matchLine, hall, hm]
  rw [range'_one_reverse_succ]
  simp only [List.map_cons, List.cons_append, List.findSome?_cons]
  rw [h1, h2, tryTail_nil]
  cases m with
  | zero =>
    rw [if_neg (by omega : ¬(2 ≤ 0 + 1))]
    simp only [List.range', List.map_nil, List.reverse_nil, List.nil_append,
      List.findSome?_cons]
    rcases l with _ | ⟨d0, ltail⟩
    · exact absurd rfl hne
    · have hltail : ltail = [] := by simpa using hm
      subst hltail
      have hd0dig : d0.isDigit = true := by
        rw [List.all_eq_true] at hdigits
        exact hdigits d0 (by simp)
      rw [tryTail_not_x _ _ _ (isDigit_not_x d0 hd0dig),
        wsSearch_single_not_ws _ _ (isDigit_not_ws d0 hd0dig) (isDigit_dot d0 hd0dig)]
  | succ m' =>
    rw [range'_one_reverse_succ]
    simp only [List.map_cons, List.cons_append, List.findSome?_cons]
    have hd1 : l.drop (m' + 1) = [lastD l '0'] := by
      have := drop_len_sub_one l '0' hne
      rw [hm] at this
      simpa using this
    have hlastdig : (lastD l '0').isDigit = true := by
      rw [List.all_eq_true] at hdigits
      exact hdigits _ (lastD_mem l '0' hne)
    have ht1 : l.take (m' + 1) = l.dropLast := by
      rw [List.dropLast_eq_take]
      congr 1
      omega
    rw [hd1, ht1, tryTail_not_x _ _ _ (isDigit_not_x _ hlastdig),
      wsSearch_single_not_ws _ _ (isDigit_not_ws _ hlastdig) (isDigit_dot _ hlastdig)]
    rw [if_pos (by omega)]

/-- C6 counterexample: the line x Foo has no leading integer, yet the
tokenizer consumes the leading x (the optional x of the regex does not
require a preceding integer), so the entry's name is Foo rather than
the entire trimmed line; an all-digit line such as 44 is not discarded
either, but backtracks into quantity 4 with name 4. -/
theorem tokenizer_leading_x_counterexample :
    tokenizeLine ('x' :: ' ' :: 'F' :: 'o' :: 'o' :: [])
      = some ⟨'F' :: 'o' :: 'o' :: [], 1⟩
    ∧ ('F' :: 'o' :: 'o' :: []) ≠ ('x' :: ' ' :: 'F' :: 'o' :: 'o' :: [])
    ∧ tokenizeLine ('4' :: '4' :: []) = some ⟨'4' :: [], 4⟩ := by
  refine ⟨?_, by decide, ?_⟩ <;> rfl

theorem all_dot_of_all_digit (l : Str) (h : l.all Char.isDigit = true) :
    l.all isDotChar = true := by
  rw [List.all_eq_true] at h ⊢
  intro x hx
  exact isDigit_dot x (h x hx)

/-- C6 (amended): per-line tokenization is exactly described by the
closed form `tokenizeLineSpec`: an optional leading integer, then an
optional literal x/X that is consumed even when no integer precedes it,
then the rest of the line as the name, trimmed; when no integer and no
leading x/X is present the quantity is 1 and the name is the whole
trimmed line; an all-digit line of two or more digits backtracks into
all-but-the-last digit as the quantity and the last digit as the name
(a single digit gives quantity 1); a name region containing a carriage
return after left-trimming fails the regex and drops the line; and a
line whose name is empty after trimming, or starts a comment, is
discarded. -/
theorem tokenizeLine_eq_tokenizeLineSpec :
    ∀ line : Str, tokenizeLine line = tokenizeLineSpec line := by
  intro line
  rcases line with _ | ⟨c, rest⟩
  · rfl
  · cases hds : (c :: rest).takeWhile Char.isDigit with
    | nil =>
      unfold tokenizeLine
      rw [matchLine_no_digits _ hds]
      unfold tokenizeLineSpec
      simp only [hds, List.isEmpty_nil, if_true]
      cases hx : isXChar c with
      | true =>
        rw [process_tryTail_x none c rest hx]
        cases rest with
        | nil =>
          simp [hx, trimL, List.dropWhile_cons, xchar_not_ws c hx, xchar_dot c hx]
        | cons r0 rs =>
          simp [hx]
      | false =>
        rw [tryTail_not_x none c rest hx, process_wsSearch none (c :: rest) (by simp)]
        simp [hx]
    | cons d ds' =>
      have hdsne : (c :: rest).takeWhile Char.isDigit ≠ [] := by rw [hds]; simp
      cases hr : (c :: rest).dropWhile Char.isDigit with
      | nil =>
        have hall : (c :: rest).takeWhile Char.isDigit = c :: rest := by
          have h := List.takeWhile_append_dropWhile Char.isDigit (c :: rest)
          rw [hr, List.append_nil] at h
          exact h
        have hdigits : (c :: rest).all Char.isDigit = true := by
          rw [← hall]
          exact List.all_takeWhile
        unfold tokenizeLine
        rw [matchLine_all_digits _ (by simp) hr]
        unfold tokenizeLineSpec
        simp only [hr, hall, List.isEmpty_cons, Bool.false_eq_true, if_false]
        by_cases hlen : 2 ≤ (c :: rest).length
        · rw [if_pos hlen, if_pos hlen]
          have hld : (lastD (c :: rest) '0').isDigit = true := by
            rw [List.all_eq_true] at hdigits
            exact hdigits _ (lastD_mem _ '0' (by simp))
          have h1 : trimL [lastD (c :: rest) '0'] = [lastD (c :: rest) '0'] := by
            simp [trimL, List.dropWhile_cons, isDigit_not_ws _ hld]
          simp [matchResultToEntry, h1, isDigit_dot _ hld]
        · rw [if_neg hlen, if_neg hlen]
          have hcdig : c.isDigit = true := by
            rw [List.all_eq_true] at hdigits
            exact hdigits c (by simp)
          have h1 : trimL (c :: rest) = c :: rest := by
            simp [trimL, List.dropWhile_cons, isDigit_not_ws _ hcdig]
          simp [matchResultToEntry, h1, all_dot_of_all_digit _ hdigits]
      | cons r0 rs =>
        unfold tokenizeLine
        rw [matchLine_digits_restne _ hdsne (by rw [hr]; simp), hr, hds]
        unfold tokenizeLineSpec
        simp only [hds, hr, List.isEmpty_cons, Bool.false_eq_true, if_false]
        cases hx2 : isXChar r0 with
        | true =>
          rw [process_tryTail_x (some (d :: ds')) r0 rs hx2]
          cases rs with
          | nil =>
            simp [hx2, trimL, List.dropWhile_cons, xchar_not_ws r0 hx2,
              xchar_dot r0 hx2]
          | cons s0 ss =>
            simp [hx2]
        | false =>
          rw [tryTail_not_x _ _ _ hx2,
            process_wsSearch (some (d :: ds')) (r0 :: rs) (by simp)]
          simp [hx2]

end TokenizerEquivalence

end MTG
